import Mathlib

/-
Verification of the madblog Webmention subsystem.

Shallow embedding conventions:
- Python `str` is modelled as `List Char` (abbreviated `Str`); `s2c` converts a
  Lean string literal.
- Python `datetime` is modelled by `PyDateTime`: the value is identified with
  its ISO-8601 rendering (`iso`, the output of `datetime.isoformat()`) plus an
  awareness flag (`tzinfo is not None`).  The code under verification only ever
  produces timezone-aware UTC datetimes, whose `isoformat` ends in `+00:00`.
- `pathlib.Path` is modelled as a list of path components (`FsPath`); pathlib
  compares paths componentwise, and all components produced by the code are
  single path segments.
- The file system is an association list from paths to file contents.
- Fallible Python code (assertions, `datetime.fromisoformat` failures) is
  modelled with `Except Str`.
-/

/-- Python `str` as a list of characters. -/
abbrev Str := List Char

/-- Convert a Lean string literal to the `Str` model. -/
def s2c (s : String) : Str := s.toList

/-- Python whitespace characters relevant to this code base (`str.strip`,
`\s` in the regexes; the exotic members `\x0b`/`\x0c` never occur here). -/
def isPySpace (c : Char) : Bool :=
  c = ' ' || c = '\t' || c = '\n' || c = '\r'

/-- Python `str.strip()`. -/
def pyStrip (s : Str) : Str :=
  ((s.dropWhile isPySpace).reverse.dropWhile isPySpace).reverse

/-- Python `str.strip(chars)` restricted to a single character (used as
`.strip("-")` in `_safe_filename`). -/
def pyStripChar (ch : Char) (s : Str) : Str :=
  ((s.dropWhile (· = ch)).reverse.dropWhile (· = ch)).reverse

/-- Boolean prefix test on character lists. -/
def hasPfx : Str → Str → Bool
  | [], _ => true
  | _ :: _, [] => false
  | a :: as, b :: bs => a = b && hasPfx as bs

/-- Boolean suffix test on character lists. -/
def hasSfx (suf s : Str) : Bool := hasPfx suf.reverse s.reverse

/-- Python `needle in hay` (substring test). -/
def strContainsSub (hay needle : Str) : Bool :=
  match hay with
  | [] => hasPfx needle []
  | _ :: t => hasPfx needle hay || strContainsSub t needle

/-- Split at the first occurrence of `c`, returning the parts before and after
it; `none` when `c` does not occur. -/
def splitFirst (c : Char) : Str → Option (Str × Str)
  | [] => none
  | x :: xs =>
    if x = c then some ([], xs)
    else (splitFirst c xs).map (fun p => (x :: p.1, p.2))

/-- Python `str.splitlines` restricted to `\n` separators (the only line
separator the serializer emits).  Unlike Python it reports one final empty
line for a trailing `\n`; the metadata scanner ignores empty lines, so the
difference is unobservable. -/
def splitLines : Str → List Str
  | [] => [[]]
  | c :: cs =>
    if c = '\n' then [] :: splitLines cs
    else
      match splitLines cs with
      | [] => [[c]]
      | h :: t => (c :: h) :: t

/-- Python `str.lower()` restricted to ASCII (all inputs here are ASCII). -/
def pyLower (s : Str) : Str := s.map Char.toLower

/-- Lexicographic comparison of character lists; models Python's `<=` on
`str`, and on ISO-8601 timestamps with equal UTC offsets it agrees with the
`datetime` order. -/
def charListLe : Str → Str → Bool
  | [], _ => true
  | _ :: _, [] => false
  | a :: as, b :: bs => if a = b then charListLe as bs else decide (a < b)

/-- Python `datetime`: identified with its `isoformat()` rendering plus the
awareness flag (`tzinfo is not None`). -/
structure PyDateTime where
  iso : Str
  aware : Bool
deriving DecidableEq, Repr

/-- Shallow check that a string is an ISO-8601 timestamp, modelling the
success condition of `datetime.fromisoformat` (which raises `ValueError`
otherwise); only the date prefix is inspected. -/
def looksIso (v : Str) : Bool :=
  match v with
  | y1 :: y2 :: y3 :: y4 :: '-' :: m1 :: m2 :: '-' :: d1 :: d2 :: rest =>
    y1.isDigit && y2.isDigit && y3.isDigit && y4.isDigit &&
    m1.isDigit && m2.isDigit && d1.isDigit && d2.isDigit &&
    (rest.isEmpty || rest.head? = some 'T')
  | _ => false

/-- Awareness of a parsed ISO string.  The code under verification only
produces UTC-aware datetimes (suffix `+00:00`) or, via `datetime.isoformat`
round-trips, naive ones; `Z` is also accepted by `fromisoformat`. -/
def isoAwareStr (v : Str) : Bool :=
  hasSfx (s2c "+00:00") v || hasSfx (s2c "Z") v

/-- Model of `datetime.fromisoformat`. -/
def fromisoformat (v : Str) : Option PyDateTime :=
  if looksIso v then some { iso := v, aware := isoAwareStr v } else none

/-- Model of `dt.replace(tzinfo=timezone.utc)` on a naive datetime: the value
becomes aware and its `isoformat` gains the `+00:00` suffix. -/
def replaceTzUtc (d : PyDateTime) : PyDateTime :=
  if d.aware then d else { iso := d.iso ++ s2c "+00:00", aware := true }

/-- madblog/webmentions/_model.py: `WebmentionDirection`. -/
inductive WebmentionDirection where
  | IN
  | OUT
deriving DecidableEq, Repr

/-- Enum value string of a direction. -/
def WebmentionDirection.value : WebmentionDirection → Str
  | .IN => s2c "incoming"
  | .OUT => s2c "outgoing"

/-- Status value of `WebmentionStatus.PENDING` (madblog/webmentions/_model.py). -/
def pendingStatusValue : Str := s2c "pending"

/-- Status value of `WebmentionStatus.DELETED` (madblog/webmentions/_model.py). -/
def deletedStatusValue : Str := s2c "deleted"

/-- Modelled from the spec: `madblog/storage/mentions/_storage.py` imports
`WebmentionStatus` from the external `webmentions` package, which is not under
src/ and whose `CONFIRMED` member therefore has no source here; the spec gives
the status vocabulary as PENDING, CONFIRMED/APPROVED and DELETED.  We model
`WebmentionStatus.CONFIRMED.value` as the string "confirmed"; the development
only relies on it being distinct from "pending" and "deleted". -/
def confirmedStatusValue : Str := s2c "confirmed"

/-- madblog/webmentions/_model.py: `WebmentionType.from_raw`.  Webmention
types are modelled by their enum value strings. -/
def WebmentionType.from_raw (raw : Option Str) : Str :=
  match raw with
  | none => s2c "unknown"
  | some r =>
    if r = [] then s2c "unknown"
    else
      let normalized := pyLower (pyStrip r)
      if normalized = s2c "in-reply-to" then s2c "reply"
      else if normalized = s2c "reply" then s2c "reply"
      else if normalized = s2c "like-of" then s2c "like"
      else if normalized = s2c "like" then s2c "like"
      else if normalized = s2c "repost-of" then s2c "repost"
      else if normalized = s2c "repost" then s2c "repost"
      else if normalized = s2c "bookmark-of" then s2c "bookmark"
      else if normalized = s2c "bookmark" then s2c "bookmark"
      else if normalized = s2c "rsvp" then s2c "rsvp"
      else if normalized = s2c "follow-of" then s2c "follow"
      else if normalized = s2c "follow" then s2c "follow"
      else if normalized = s2c "mention" then s2c "mention"
      else s2c "unknown"

/-- madblog/webmentions/_model.py: the `Webmention` dataclass.  `status` and
`mention_type` are modelled by their value strings (both enums subclass `str`
and flow through the code as plain strings after deserialization). -/
structure Webmention where
  source : Str
  target : Str
  direction : WebmentionDirection
  title : Option Str
  excerpt : Option Str
  content : Option Str
  author_name : Option Str
  author_url : Option Str
  author_photo : Option Str
  published : Option PyDateTime
  status : Str
  mention_type : Str
  mention_type_raw : Option Str
  created_at : Option PyDateTime
  updated_at : Option PyDateTime
deriving DecidableEq, Repr

/-- Dataclass constructor with the declared field defaults
(`status=PENDING`, `mention_type=UNKNOWN`, everything optional `None`). -/
def mkWebmention (source target : Str) (direction : WebmentionDirection) : Webmention :=
  { source := source
    target := target
    direction := direction
    title := none
    excerpt := none
    content := none
    author_name := none
    author_url := none
    author_photo := none
    published := none
    status := pendingStatusValue
    mention_type := s2c "unknown"
    mention_type_raw := none
    created_at := none
    updated_at := none }

/-- Value stored in a Python metadata dict: either a string (as produced by
`_parse_metadata`) or a datetime (as inserted by `delete_webmention`). -/
inductive MVal where
  | s (v : Str)
  | d (dt : PyDateTime)
deriving DecidableEq, Repr

/-- Python dict modelled as an association list in which a later entry for the
same key shadows an earlier one (dict assignment / `{**a, k: v}` override). -/
abbrev PyDict := List (Str × MVal)

deriving instance DecidableEq for Except

/-- Dict lookup (`data.get(k)`): the rightmost entry for the key wins. -/
def dGet (d : PyDict) (k : Str) : Option MVal :=
  (d.reverse.find? (fun e => e.1 == k)).map (fun e => e.2)

/-- Python truthiness of an optional dict value (`None` and `""` are falsy). -/
def pyTruthy (o : Option MVal) : Bool :=
  match o with
  | none => false
  | some (.s v) => !v.isEmpty
  | some (.d _) => true

/-- Read a dict value as an optional string (every value reaching the plain
string fields of the dataclass is a string). -/
def getStrOpt (o : Option MVal) : Option Str :=
  match o with
  | some (.s v) => some v
  | _ => none

/-- Read a dict value as a string, defaulting to the empty string. -/
def getStrD (o : Option MVal) : Str :=
  match o with
  | some (.s v) => v
  | _ => []

/-- madblog/webmentions/_model.py, `Webmention.build`: the inner `_parse_dt`.
A blank or missing value yields `None`; a datetime passes through; any other
string goes through `datetime.fromisoformat` (whose failure raises, modelled
as `.error`) and a naive result is coerced to UTC. -/
def parseDt (v : Option MVal) : Except Str (Option PyDateTime) :=
  match v with
  | none => .ok none
  | some (.d dt) => .ok (some dt)
  | some (.s txt) =>
    if pyStrip txt = [] then .ok none
    else
      match fromisoformat txt with
      | some dt => .ok (some (replaceTzUtc dt))
      | none => .error (s2c "Invalid isoformat string")

/-- madblog/webmentions/_model.py, `Webmention.build`.  Mirrors the Python
classmethod: asserts `source`/`target` truthy, normalizes `mention_type`
through `from_raw` when it is a non-empty string (else `MENTION`), overwrites
`direction` with the `direction` argument, `status` with the dict value or
`PENDING`, `mention_type_raw` with the normalized type's value, and parses the
three timestamp fields with `_parse_dt`. -/
def Webmention.build (data : PyDict) (direction : WebmentionDirection) :
    Except Str Webmention :=
  if !pyTruthy (dGet data (s2c "source")) then
    .error (s2c "source is required")
  else if !pyTruthy (dGet data (s2c "target")) then
    .error (s2c "target is required")
  else
    let mention_type : Str :=
      match dGet data (s2c "mention_type") with
      | some (.s v) =>
        if v.isEmpty then s2c "mention" else WebmentionType.from_raw (some v)
      | _ => s2c "mention"
    match parseDt (dGet data (s2c "published")),
        parseDt (dGet data (s2c "created_at")),
        parseDt (dGet data (s2c "updated_at")) with
    | .error e, _, _ => .error e
    | .ok _, .error e, _ => .error e
    | .ok _, .ok _, .error e => .error e
    | .ok published, .ok created_at, .ok updated_at =>
      .ok
        { source := getStrD (dGet data (s2c "source"))
          target := getStrD (dGet data (s2c "target"))
          direction := direction
          title := getStrOpt (dGet data (s2c "title"))
          excerpt := getStrOpt (dGet data (s2c "excerpt"))
          content := getStrOpt (dGet data (s2c "content"))
          author_name := getStrOpt (dGet data (s2c "author_name"))
          author_url := getStrOpt (dGet data (s2c "author_url"))
          author_photo := getStrOpt (dGet data (s2c "author_photo"))
          published := published
          status :=
            match dGet data (s2c "status") with
            | some (.s v) => if v.isEmpty then pendingStatusValue else v
            | _ => pendingStatusValue
          mention_type := mention_type
          mention_type_raw := some mention_type
          created_at := created_at
          updated_at := updated_at }

/-- madblog/storage/mentions/_storage.py, `_parse_metadata`: match of the
regex `\[//]: # \(([^:]+): (.+)\)` against one line (`re.match`, so a prefix
match: trailing characters after the last `)` are ignored, the key is the
non-empty run up to the first colon, and the greedy `(.+)` extends to the last
`)` of the line, which must leave at least one value character). -/
def matchMetaLine (line : Str) : Option (Str × Str) :=
  if hasPfx (s2c "[//]: # (") line then
    let rest := line.drop 9
    match splitFirst ':' rest with
    | none => none
    | some (key, after) =>
      if key = [] then none
      else
        match after with
        | ' ' :: valpart =>
          match (valpart.reverse.dropWhile (fun c => c ≠ ')')) with
          | [] => none
          | _ :: restRev =>
            let value := restRev.reverse
            if value = [] then none
            else some (pyStrip key, pyStrip value)
        | _ => none
  else none

/-- The line-scanning fold of `_parse_metadata`, over an explicit line list
and accumulator. -/
def pmFold (lines : List Str) (d : PyDict) : PyDict :=
  lines.foldl
    (fun d line =>
      match matchMetaLine line with
      | some kv => d ++ [(kv.1, MVal.s kv.2)]
      | none => d)
    d

/-- madblog/storage/mentions/_storage.py, `_parse_metadata`: scan every line,
keep the regex matches, later duplicates override earlier ones. -/
def parse_metadata (content : Str) : PyDict :=
  pmFold (splitLines content) []

/-- One serialized metadata comment line (without its trailing newline). -/
def metaLine (k v : Str) : Str :=
  s2c "[//]: # (" ++ k ++ s2c ": " ++ v ++ [')']

/-- Rendered metadata of a Webmention: the `asdict` items in dataclass field
order with `content` excluded, each value rendered to the string the
serializer writes (enums by value, datetimes by `isoformat`), `None` values
kept as `none` so the serializer can skip them. -/
def metaPairs (m : Webmention) : List (Str × Option Str) :=
  [(s2c "source", some m.source),
   (s2c "target", some m.target),
   (s2c "direction", some m.direction.value),
   (s2c "title", m.title),
   (s2c "excerpt", m.excerpt),
   (s2c "author_name", m.author_name),
   (s2c "author_url", m.author_url),
   (s2c "author_photo", m.author_photo),
   (s2c "published", m.published.map (fun d => d.iso)),
   (s2c "status", some m.status),
   (s2c "mention_type", some m.mention_type),
   (s2c "mention_type_raw", m.mention_type_raw),
   (s2c "created_at", m.created_at.map (fun d => d.iso)),
   (s2c "updated_at", m.updated_at.map (fun d => d.iso))]

/-- Dict formed by a list of optional entries (present values only, in
order). -/
def optEntries (ps : List (Str × Option Str)) : PyDict :=
  ps.filterMap (fun e => e.2.map (fun v => (e.1, MVal.s v)))

/-- The dict the metadata scanner recovers from a well-formed serialized
mention: one entry per present metadata field, in field order. -/
def metaDict (m : Webmention) : PyDict := optEntries (metaPairs m)

/-- madblog/storage/mentions/_storage.py, `_format_webmention_markdown`:
the metadata lines — one per non-`None`, non-`content` field, in dataclass
field order. -/
def metaLinesOf (m : Webmention) : List Str :=
  (metaPairs m).filterMap (fun e => e.2.map (fun v => metaLine e.1 v))

/-- Join lines, appending a newline after each (the serializer emits
`f"...\n"` per metadata line). -/
def joinNl (ls : List Str) : Str := (ls.map (fun l => l ++ ['\n'])).flatten

/-- madblog/storage/mentions/_storage.py, `_format_webmention_markdown`:
metadata comment lines, then `f"\n{mention.content}\n"` (a `None` content is
rendered as the literal string `None` by the f-string). -/
def format_webmention_markdown (m : Webmention) : Str :=
  joinNl (metaLinesOf m) ++ ['\n'] ++
  (match m.content with | some c => c | none => s2c "None") ++ ['\n']

/-- Python `re.sub(r"[^\w\s-]", "", text)` keeps word characters (modelled as
ASCII alphanumerics plus underscore), whitespace and hyphens. -/
def keepSafeChars (s : Str) : Str :=
  s.filter (fun c => c.isAlphanum || c = '_' || isPySpace c || c = '-')

/-- Worker for `collapseDashRuns`: `inRun` records whether the previous
character belonged to a hyphen/whitespace run that already emitted its
hyphen. -/
def collapseDashAux (inRun : Bool) : Str → Str
  | [] => []
  | c :: cs =>
    if isPySpace c || c = '-' then
      if inRun then collapseDashAux true cs
      else '-' :: collapseDashAux true cs
    else c :: collapseDashAux false cs

/-- Python `re.sub(r"[-\s]+", "-", s)`: collapse every run of hyphens and
whitespace into a single hyphen. -/
def collapseDashRuns (s : Str) : Str := collapseDashAux false s

/-- madblog/storage/mentions/_storage.py, `_safe_filename`: sanitize, collapse
hyphen/space runs, truncate to 50 characters, strip surrounding hyphens. -/
def safe_filename (text : Str) : Str :=
  pyStripChar '-' ((collapseDashRuns (keepSafeChars text)).take 50)

/-- Python `str.rstrip("/")`. -/
def rstripSlash (s : Str) : Str :=
  (s.reverse.dropWhile (fun c => c = '/')).reverse

/-- Python `str.split("/")` (the separator-keeping split used by
`_extract_post_slug`; splitting never returns an empty list). -/
def splitOnSlash (s : Str) : List Str :=
  aux s
where
  aux : Str → List Str
    | [] => [[]]
    | c :: cs =>
      if c = '/' then [] :: aux cs
      else
        match aux cs with
        | [] => [[c]]
        | h :: t => (c :: h) :: t

/-- madblog/storage/mentions/_storage.py, `_extract_post_slug`: last
`/`-separated segment of the URL (after stripping trailing slashes), made
filesystem-safe. -/
def extract_post_slug (target_url : Str) : Str :=
  safe_filename ((splitOnSlash (rstripSlash target_url)).getLastD [])

/-- Model of `urllib.parse.urlparse(url).netloc`: the authority between the
`://` separator and the next `/`, `?` or `#`.  (For the URLs handled here —
absolute http(s) URLs — this agrees with urllib.) -/
def urlNetloc (u : Str) : Str :=
  match splitFirst ':' u with
  | some (_, rest) =>
    match rest with
    | '/' :: '/' :: after =>
      after.takeWhile (fun c => c ≠ '/' && c ≠ '?' && c ≠ '#')
    | _ => []
  | none => []

/-- madblog/storage/mentions/_storage.py, `_generate_mention_filename`: the
sanitized domain fragment — the netloc of the URL with dots replaced by
hyphens, made filesystem-safe.  (The 8-hex-digit truncated MD5 it is combined
with is modelled by the `hash` parameter every storage operation receives.) -/
def sanitizedDomain (source_url : Str) : Str :=
  safe_filename ((urlNetloc source_url).map (fun c => if c = '.' then '-' else c))

/-- madblog/storage/mentions/_storage.py, `_generate_mention_filename`
(continued): `f"{mention_type}-{domain}-{url_hash}.md"`. -/
def generate_mention_filename (hash : Str → Str) (source_url : Str)
    (mention_type : Str) : Str :=
  mention_type ++ ['-'] ++ sanitizedDomain source_url ++ ['-'] ++
    hash source_url ++ s2c ".md"

/-- Filesystem path, modelled as pathlib components. -/
abbrev FsPath := List Str

/-- File system: association list from paths to file contents, with at most
one entry per path. -/
abbrev FileSys := List (FsPath × Str)

/-- Lookup a file. -/
def fsGet (fs : FileSys) (p : FsPath) : Option Str :=
  (fs.find? (fun e => e.1 == p)).map (fun e => e.2)

/-- Remove a file if present. -/
def fsDel (fs : FileSys) (p : FsPath) : FileSys :=
  fs.filter (fun e => e.1 != p)

/-- Write (create or overwrite) a file.  (Association lists carry no
meaningful order: the only ordered consumer is the `glob` loop of
`retrieve_webmentions`, whose iteration order the OS leaves unspecified.) -/
def fsSet (fs : FileSys) (p : FsPath) (content : Str) : FileSys :=
  fsDel fs p ++ [(p, content)]

/-- Python `pathlib.Path.with_suffix(".tmp")` on the last path component:
drop the extension after the final dot (if any) and append `.tmp`. -/
def withSuffixTmp (p : FsPath) : FsPath :=
  match p.getLast? with
  | none => p
  | some name =>
    let stem :=
      if name.contains '.' then
        ((name.reverse.dropWhile (fun c => c ≠ '.')).drop 1).reverse
      else name
    p.dropLast ++ [stem ++ s2c ".tmp"]

/-- Fault model for `_atomic_write`: the write either succeeds, fails while
writing the temporary file (leaving partial content there before the cleanup
runs), or fails during the final rename. -/
inductive WriteFault where
  | ok
  | failWrite (partialContent : Str)
  | failReplace
deriving DecidableEq, Repr

/-- madblog/storage/mentions/_storage.py, `_atomic_write`: write the full
content to the `.tmp` sibling, then atomically rename it over `filepath`; on
any exception remove the temporary file (if it exists) and re-raise. -/
def atomic_write (fs : FileSys) (filepath : FsPath) (content : Str)
    (fault : WriteFault) : Except Str FileSys :=
  let temp_path := withSuffixTmp filepath
  match fault with
  | .ok =>
    let fs1 := fsSet fs temp_path content
    let fs2 := fsSet (fsDel fs1 temp_path) filepath content
    .ok fs2
  | .failWrite partialContent =>
    let fs1 := fsSet fs temp_path partialContent
    .error (fsDel fs1 temp_path, s2c "io error during write").2
  | .failReplace =>
    let fs1 := fsSet fs temp_path content
    .error (fsDel fs1 temp_path, s2c "io error during replace").2

/-- The file-system state `_atomic_write` leaves behind (the exception path
removes the temporary file but keeps everything else). -/
def atomic_write_fs (fs : FileSys) (filepath : FsPath) (content : Str)
    (fault : WriteFault) : FileSys :=
  let temp_path := withSuffixTmp filepath
  match fault with
  | .ok => fsSet (fsDel (fsSet fs temp_path content) temp_path) filepath content
  | .failWrite partialContent =>
    fsDel (fsSet fs temp_path partialContent) temp_path
  | .failReplace => fsDel (fsSet fs temp_path content) temp_path

/-- madblog/storage/mentions/_storage.py, `store_webmention`: the directory of
a mention — `mentions_dir / direction.value / slug`, where the slug comes from
the target URL for incoming mentions and from the source URL for outgoing
ones. -/
def post_mentions_dir (m : Webmention) : FsPath :=
  match m.direction with
  | .IN => [s2c "mentions", WebmentionDirection.IN.value, extract_post_slug m.target]
  | .OUT => [s2c "mentions", WebmentionDirection.OUT.value, extract_post_slug m.source]

/-- The slug of the "owning" URL of a mention: target for incoming mentions,
source for outgoing ones. -/
def owningSlug (m : Webmention) : Str :=
  match m.direction with
  | .IN => extract_post_slug m.target
  | .OUT => extract_post_slug m.source

/-- madblog/storage/mentions/_storage.py, `store_webmention`: the full path of
a mention's file.  Note the filename is generated from `mention.source` for
both directions. -/
def store_webmention_path (hash : Str → Str) (m : Webmention) : FsPath :=
  post_mentions_dir m ++
    [generate_mention_filename hash m.source (s2c "webmention")]

/-- madblog/storage/mentions/_storage.py, `store_webmention`: stamp
`created_at`/`updated_at` with the current time, then — if a file already
exists at the mention's path and its metadata parses non-empty — restore
`created_at` from the parsed record (`Webmention.build` on the existing
metadata, whose exceptions propagate), serialize, and write atomically.
Returns the new file system and the file path. -/
def store_webmention (hash : Str → Str) (now : PyDateTime) (fault : WriteFault)
    (fs : FileSys) (m : Webmention) : Except Str (FileSys × FsPath) :=
  let filepath := store_webmention_path hash m
  let m1 := { m with created_at := some now, updated_at := some now }
  let merged : Except Str Webmention :=
    match fsGet fs filepath with
    | some existing_content =>
      let existing_metadata := parse_metadata existing_content
      if existing_metadata.isEmpty then .ok m1
      else
        match Webmention.build existing_metadata .IN with
        | .error e => .error e
        | .ok parsed =>
          .ok { m1 with created_at :=
                  match parsed.created_at with
                  | some c => some c
                  | none => some now }
    | none => .ok m1
  match merged with
  | .error e => .error e
  | .ok m2 =>
    match atomic_write fs filepath (format_webmention_markdown m2) fault with
    | .error e => .error e
    | .ok fs2 => .ok (fs2, filepath)

/-- Stable insertion (descending) used to model Python's stable
`sorted(..., key=key, reverse=True)`: a new element goes after every existing
element whose key is greater than or equal to its own. -/
def insertDescBy (key : Webmention → Str) (x : Webmention) :
    List Webmention → List Webmention
  | [] => [x]
  | y :: ys =>
    if charListLe (key x) (key y) then y :: insertDescBy key x ys
    else x :: y :: ys

/-- Model of `sorted(webmentions, key=..., reverse=True)`. -/
def pySortedDescBy (key : Webmention → Str) (l : List Webmention) :
    List Webmention :=
  l.foldl (fun acc x => insertDescBy key x acc) []

/-- Sort key of `retrieve_webmentions`: `x.published or x.created_at`, as the
ISO rendering.  (Python would raise comparing `None`s; every record this
backend writes carries `created_at`, so the default never participates.) -/
def retrieveSortKey (w : Webmention) : Str :=
  match w.published with
  | some d => d.iso
  | none =>
    match w.created_at with
    | some d => d.iso
    | none => []

/-- Whether a file-system entry is matched by
`post_mentions_dir.glob("webmention-*.md")`. -/
def globMatch (dir : FsPath) (p : FsPath) : Bool :=
  p.dropLast == dir &&
  (match p.getLast? with
   | some name => hasPfx (s2c "webmention-") name && hasSfx (s2c ".md") name
   | none => false)

/-- madblog/storage/mentions/_storage.py, `retrieve_webmentions`: for every
`webmention-*.md` file under the resource's directory, parse the metadata,
skip the file unless its `status` equals `WebmentionStatus.CONFIRMED.value`,
build the record (any exception is logged and the file skipped), and finally
sort descending by `published or created_at`. -/
def retrieve_webmentions (fs : FileSys) (resource : Str)
    (direction : WebmentionDirection) : List Webmention :=
  let dir : FsPath :=
    [s2c "mentions", direction.value, extract_post_slug resource]
  let files := fs.filter (fun e => globMatch dir e.1)
  let webmentions := files.filterMap (fun e =>
    let metadata := parse_metadata e.2
    if dGet metadata (s2c "status") != some (MVal.s confirmedStatusValue) then
      none
    else
      match Webmention.build metadata .IN with
      | .ok w => some w
      | .error _ => none)
  pySortedDescBy retrieveSortKey webmentions

/-- madblog/storage/mentions/_storage.py, `delete_webmention`: locate the file
from `(source, target, direction)` exactly as `store_webmention` does (slug
from target for incoming, from source for outgoing; filename from source).
Missing file → `none`.  Hard delete unlinks the file.  Soft delete re-parses
the existing metadata, overrides `source`, `target`, `updated_at` (a datetime
value) and `status: "deleted"` (the `"type"` entry it also sets is not a
dataclass field and is dropped by `build`), rebuilds the record — note with
the `direction` argument of `build` left at its default `IN` — and rewrites
the file atomically. -/
def delete_webmention (hash : Str → Str) (hard_delete : Bool)
    (now : PyDateTime) (fault : WriteFault) (fs : FileSys)
    (source target : Str) (direction : WebmentionDirection) :
    Except Str (FileSys × Option FsPath) :=
  let post_dir : FsPath :=
    match direction with
    | .IN => [s2c "mentions", WebmentionDirection.IN.value, extract_post_slug target]
    | .OUT => [s2c "mentions", WebmentionDirection.OUT.value, extract_post_slug source]
  let filepath := post_dir ++ [generate_mention_filename hash source (s2c "webmention")]
  match fsGet fs filepath with
  | none => .ok (fs, none)
  | some existing_content =>
    if hard_delete then
      .ok (fsDel fs filepath, some filepath)
    else
      let existing_metadata := parse_metadata existing_content
      let metadata : PyDict :=
        existing_metadata ++
          [(s2c "type",
            (dGet existing_metadata (s2c "type")).getD (MVal.s (s2c "webmention"))),
           (s2c "source", MVal.s source),
           (s2c "target", MVal.s target),
           (s2c "updated_at", MVal.d now),
           (s2c "status", MVal.s (s2c "deleted"))]
      match Webmention.build metadata .IN with
      | .error e => .error e
      | .ok rebuilt =>
        match atomic_write fs filepath (format_webmention_markdown rebuilt) fault with
        | .error e => .error e
        | .ok fs2 => .ok (fs2, some filepath)

/-- madblog/webmentions/_storage/__init__.py, `mark_sent`: store a fresh
`Webmention(source, target, OUT)` — all other dataclass fields at their
defaults, in particular `status = PENDING` — after stamping `updated_at`
(which `store_webmention` immediately overwrites anyway). -/
def mark_sent (hash : Str → Str) (now : PyDateTime) (fault : WriteFault)
    (fs : FileSys) (source target : Str) : Except Str (FileSys × FsPath) :=
  let mention := mkWebmention source target .OUT
  let mention := { mention with updated_at := some now }
  store_webmention hash now fault fs mention

/-- An HTTP GET response as seen by the request parser: status code and body
text. -/
structure HttpResp where
  status : Nat
  body : Str
deriving DecidableEq, Repr

/-- Failure modes of `WebmentionsRequestParser.parse`: `ValueError` (invalid
request), `WebmentionGone` (404/410 source, or target absent from the body)
and `requests.HTTPError` from `raise_for_status` (any other `>= 400`
status). -/
inductive ParseFailure where
  | valueError (msg : Str)
  | gone (msg : Str)
  | httpError (status : Nat)
deriving DecidableEq, Repr

/-- Stand-in for `WebmentionsRequestParser._parse_source_payload`: the
microformats / HTML-fallback extraction depends on the external `mf2py` and
BeautifulSoup libraries and is modelled as an explicit parameter mapping the
fetched body and the fresh mention to the filled mention. -/
abbrev PayloadFill := Str → Webmention → Webmention

/-- madblog/webmentions/_handlers/_parser.py, `parse`: reject missing
source/target (`ValueError`), reject a target domain that differs from the
configured base URL's domain (`ValueError`), raise `WebmentionGone` on a
404/410 source fetch, `raise_for_status` on any other error status, raise
`WebmentionGone` when the target does not occur verbatim in the body, and
otherwise build a fresh incoming mention and fill it from the page
content. -/
def wm_parse (base_url : Option Str) (fill : PayloadFill) (resp : HttpResp)
    (source target : Option Str) : Except ParseFailure Webmention :=
  match source, target with
  | some s, some t =>
    if s.isEmpty || t.isEmpty then
      .error (.valueError (s2c "Missing source or target URL"))
    else
      let domainOk :=
        match base_url with
        | some b => urlNetloc t == urlNetloc b
        | none => true
      if !domainOk then
        .error (.valueError (s2c "Target URL domain does not match server domain"))
      else if resp.status = 404 || resp.status = 410 then
        .error (.gone (s2c "Source URL not found"))
      else if resp.status ≥ 400 then
        .error (.httpError resp.status)
      else if !strContainsSub resp.body t then
        .error (.gone (s2c "Target URL not found in source content"))
      else
        .ok (fill resp.body (mkWebmention s t .IN))
  | _, _ => .error (.valueError (s2c "Missing source or target URL"))

/-- Failure modes of `process_incoming_webmention` as observed by its caller:
a `WebmentionException` (wrapping the parser's `ValueError`), an uncaught
`requests.HTTPError`, or an uncaught storage/build exception. -/
inductive IncomingFailure where
  | webmentionException (msg : Str)
  | httpError (status : Nat)
  | storageError (msg : Str)
deriving DecidableEq, Repr

/-- madblog/webmentions/_handlers/_incoming.py,
`process_incoming_webmention`: parse the request; on `WebmentionGone` delete
the stored mention for `(source, target, IN)` and return `None`; on
`ValueError` re-raise as `WebmentionException`; otherwise stamp
`created_at = created_at or published or now` and `updated_at = updated_at or
now` and store.  Returns the file system together with the stored path
(`none` models the `return None` of the gone branch). -/
def process_incoming_webmention (hash : Str → Str) (hard_delete : Bool)
    (base_url : Option Str) (fill : PayloadFill)
    (handlerNow storeNow : PyDateTime) (fault : WriteFault) (fs : FileSys)
    (resp : HttpResp) (source target : Option Str) :
    Except IncomingFailure (FileSys × Option FsPath) :=
  match wm_parse base_url fill resp source target with
  | .error (.gone _) =>
    match delete_webmention hash hard_delete handlerNow fault fs
        (source.getD []) (target.getD []) .IN with
    | .ok (fs2, _) => .ok (fs2, none)
    | .error e => .error (.storageError e)
  | .error (.valueError msg) => .error (.webmentionException msg)
  | .error (.httpError st) => .error (.httpError st)
  | .ok mention =>
    let mention :=
      { mention with
          created_at :=
            match mention.created_at with
            | some c => some c
            | none =>
              match mention.published with
              | some p => some p
              | none => some handlerNow
          updated_at :=
            match mention.updated_at with
            | some u => some u
            | none => some handlerNow }
    match store_webmention hash storeNow fault fs mention with
    | .ok (fs2, path) => .ok (fs2, some path)
    | .error e => .error (.storageError e)

/-- The pair of target sets handed to the two thread pools by
`process_outgoing_webmentions`. -/
structure OutgoingDispatch where
  added : Finset Str
  removed : Finset Str
deriving DecidableEq

/-- madblog/webmentions/_handlers/_outgoing.py,
`process_outgoing_webmentions`, lines 82-93: `removed = old_targets -
new_targets`; the added pool receives every element of `sorted(new_targets)`
(no `new - old` difference is computed anywhere) and the removed pool every
element of `sorted(removed)`.  Submission order does not affect which targets
are notified, so the dispatch is modelled as the pair of sets. -/
def process_outgoing_dispatch (new_targets old_targets : Finset Str) :
    OutgoingDispatch :=
  let removed := old_targets \ new_targets
  { added := new_targets, removed := removed }

/-- madblog/webmentions/_handlers/_outgoing.py, lines 72-80: the previously
recorded outgoing target set — `{w.target for w in
storage.retrieve_webmentions(source_url, OUT)}` (an exception yields the
empty set; the model's retrieval is total). -/
def outgoing_old_targets (fs : FileSys) (source_url : Str) : Finset Str :=
  ((retrieve_webmentions fs source_url .OUT).map (fun w => w.target)).toFinset

/-- madblog/webmentions/_handlers/_outgoing.py: the full dispatch of one
outgoing run, given the target set extracted from the content. -/
def process_outgoing_webmentions (fs : FileSys) (source_url : Str)
    (new_targets : Finset Str) : OutgoingDispatch :=
  process_outgoing_dispatch new_targets (outgoing_old_targets fs source_url)

/-- madblog/webmentions/_storage/file/_watcher.py: `ContentTextFormat`
candidates returned by `_guess_text_format`. -/
inductive ContentTextFormat where
  | HTML
  | MARKDOWN
  | TEXT
deriving DecidableEq, Repr

/-- madblog/webmentions/_storage/file/_watcher.py: `ContentChangeType`. -/
inductive ContentChangeType where
  | ADDED
  | EDITED
  | DELETED
deriving DecidableEq, Repr

/-- madblog/webmentions/_storage/file/_watcher.py: the `ContentChange`
dataclass. -/
structure ContentChange where
  change_type : ContentChangeType
  path : Str
  text : Option Str
  text_format : Option ContentTextFormat
deriving DecidableEq, Repr

/-- Monotonic time (`time.monotonic()`), in seconds. -/
abbrev WTime := ℚ

/-- The watcher's debounce window `_debounce_seconds` (2.0). -/
def debounceSeconds : WTime := 2

/-- The watcher's `_min_process_interval_seconds` (2.0). -/
def minProcessIntervalSeconds : WTime := 2

/-- Snapshot of the content tree as seen by `_build_change`: whether a path
is a regular file, and its text (`none` models an unreadable file). -/
structure WatchFs where
  isFile : Str → Bool
  readText : Str → Option Str

/-- Model of `os.path.splitext(path)[1]`: the extension (with its dot) of the
last path component, empty when the name has no dot or only a leading dot. -/
def splitExtExt (p : Str) : Str :=
  let base := (splitOnSlash p).getLastD []
  let revPre := base.reverse.takeWhile (fun c => c ≠ '.')
  if revPre.length + 1 < base.length then '.' :: revPre.reverse
  else if revPre.length + 1 = base.length then
    '.' :: revPre.reverse
  else []

/-- madblog/webmentions/_storage/file/_watcher.py, `_guess_text_format`:
classify by the (lowercased) extension. -/
def guess_text_format (path : Str) : Option ContentTextFormat :=
  let ext := splitExtExt (pyLower path)
  if ext = s2c ".html" || ext = s2c ".htm" then some .HTML
  else if ext = s2c ".md" || ext = s2c ".markdown" then some .MARKDOWN
  else if ext = s2c ".txt" || ext = s2c ".text" then some .TEXT
  else none

/-- madblog/webmentions/_storage/file/_watcher.py, `_build_change`: a
"deleted" event or a vanished file yields a DELETED change with no text;
otherwise "created" maps to ADDED and anything else to EDITED, the file is
read (read failures leave `text = None`), and an unrecognized extension drops
the change. -/
def build_change (wfs : WatchFs) (event_type : Str) (abs_path : Str) :
    Option ContentChange :=
  if event_type = s2c "deleted" || !wfs.isFile abs_path then
    some { change_type := .DELETED, path := abs_path, text := none,
           text_format := none }
  else
    let change_type : ContentChangeType :=
      if event_type = s2c "created" then .ADDED else .EDITED
    let text := wfs.readText abs_path
    match guess_text_format abs_path with
    | none => none
    | some text_format =>
      some { change_type := change_type, path := abs_path, text := text,
             text_format := some text_format }

/-- Debounce state owned by the watcher's consumer loop (`_pending_paths`,
`_last_event_at`, `_last_event_type`, `_last_process_at`).  The pending set is
kept as an insertion-ordered duplicate-free list; Python iterates a `set` in
unspecified order, and no property below depends on the order. -/
structure WatcherState where
  pending : List Str
  last_event_at : Str → Option WTime
  last_event_type : Str → Option Str
  last_process_at : WTime

/-- The initial debounce state. -/
def initialWatcherState : WatcherState :=
  { pending := []
    last_event_at := fun _ => none
    last_event_type := fun _ => none
    last_process_at := 0 }

/-- Pointwise map update. -/
def updFn {β : Type} (f : Str → β) (k : Str) (v : β) : Str → β :=
  fun x => if x = k then v else f x

/-- madblog/webmentions/_storage/file/_watcher.py, `_flush_debounced`: return
unless something is pending, the minimum inter-process interval has elapsed
since the last batch dispatch, and some pending path has been quiet for the
debounce window; dispatch each ready path (removing its debounce bookkeeping
first), skipping paths whose `_build_change` is `None`; handler exceptions
are swallowed. -/
def flush_debounced (wfs : WatchFs) (st : WatcherState) (now : WTime) :
    WatcherState × List ContentChange :=
  if st.pending.isEmpty then (st, [])
  else if now - st.last_process_at < minProcessIntervalSeconds then (st, [])
  else
    let ready := st.pending.filter
      (fun p => debounceSeconds ≤ now - ((st.last_event_at p).getD now))
    if ready.isEmpty then (st, [])
    else
      let st1 := { st with last_process_at := now }
      ready.foldl
        (fun acc p =>
          let etype := ((acc.1).last_event_type p).getD []
          let st2 : WatcherState :=
            { acc.1 with
                pending := (acc.1).pending.filter (fun q => q ≠ p)
                last_event_at := updFn (acc.1).last_event_at p none
                last_event_type := updFn (acc.1).last_event_type p none }
          match build_change wfs etype p with
          | some change => (st2, acc.2 ++ [change])
          | none => (st2, acc.2))
        (st1, [])

/-- One input consumed by the watcher loop `_watch_loop`: either a queued
filesystem event (event type string and path, with the `time.monotonic()`
reading taken when it is dequeued) or a queue-timeout poll.  Both end in a
`_flush_debounced` call. -/
inductive WatchInput where
  | fsEvent (now : WTime) (event_type : Str) (path : Str)
  | poll (now : WTime)

/-- madblog/webmentions/_storage/file/_watcher.py, `_watch_loop` body: a
dequeued event adds its path to the pending set and records its time and
type, then flushes; an empty-queue timeout just flushes. -/
def watch_step (wfs : WatchFs) (st : WatcherState) (inp : WatchInput) :
    WatcherState × List ContentChange :=
  match inp with
  | .fsEvent now event_type path =>
    let st1 : WatcherState :=
      { st with
          pending := if path ∈ st.pending then st.pending else st.pending ++ [path]
          last_event_at := updFn st.last_event_at path (some now)
          last_event_type := updFn st.last_event_type path (some event_type) }
    flush_debounced wfs st1 now
  | .poll now => flush_debounced wfs st now

/-- Run the watcher loop over a list of inputs, collecting every dispatched
change in order. -/
def watch_run (wfs : WatchFs) (st : WatcherState) :
    List WatchInput → WatcherState × List ContentChange
  | [] => (st, [])
  | inp :: rest =>
    let (st1, out1) := watch_step wfs st inp
    let (st2, out2) := watch_run wfs st1 rest
    (st2, out1 ++ out2)

/-- A metadata value is fit for the `key: value` comment format: non-empty,
newline-free (`\r` included, since Python `splitlines` also splits on it),
and invariant under `str.strip` (the scanner strips what it captures). -/
abbrev WFVal (v : Str) : Prop :=
  v ≠ [] ∧ '\n' ∉ v ∧ '\r' ∉ v ∧ pyStrip v = v

/-- A metadata key is fit for the comment format: non-empty, colon-free,
strip-invariant and newline-free.  Every key the serializer writes is a
concrete dataclass field name satisfying this. -/
abbrev KeyOK (k : Str) : Prop :=
  k ≠ [] ∧ ':' ∉ k ∧ pyStrip k = k ∧ '\n' ∉ k

/-- A datetime round-trips through `isoformat`/`fromisoformat`: its rendering
is a well-formed value, parses as ISO, and is recognizably timezone-aware. -/
abbrev WFDT (d : PyDateTime) : Prop :=
  looksIso d.iso = true ∧ isoAwareStr d.iso = true ∧ d.aware = true ∧ WFVal d.iso

/-- Well-formedness of every serialized field of a mention, plus the demand
that no line of the serialized body is itself shaped like a metadata comment
(which would be re-scanned as metadata). -/
structure WFW (m : Webmention) : Prop where
  source : WFVal m.source
  target : WFVal m.target
  title : ∀ v, m.title = some v → WFVal v
  excerpt : ∀ v, m.excerpt = some v → WFVal v
  author_name : ∀ v, m.author_name = some v → WFVal v
  author_url : ∀ v, m.author_url = some v → WFVal v
  author_photo : ∀ v, m.author_photo = some v → WFVal v
  published : ∀ d, m.published = some d → WFDT d
  status : WFVal m.status
  mention_type : WFVal m.mention_type
  mention_type_raw : ∀ v, m.mention_type_raw = some v → WFVal v
  created_at : ∀ d, m.created_at = some d → WFDT d
  updated_at : ∀ d, m.updated_at = some d → WFDT d
  body : ∀ l ∈ splitLines
    ((match m.content with | some c => c | none => s2c "None") ++ ['\n']),
    matchMetaLine l = none

/-- Descending sortedness of a retrieval result under the Python comparison
on the `published or created_at` key. -/
def SortedDescByKey (l : List Webmention) : Prop :=
  List.Chain' (fun a b => charListLe (retrieveSortKey b) (retrieveSortKey a) = true) l

/-- Stand-in for the truncated MD5 (`hashlib.md5(url).hexdigest()[:8]`) used
to instantiate closed statements.  Every path-level statement below is proved
for an arbitrary hash function; the collision exhibited for outgoing mentions
is structural (the target URL never reaches the path at all), so any concrete
stand-in suffices for the closed instances. -/
def hashStub : Str → Str := fun _ => s2c "0a1b2c3d"

/-- Sample clock value: an aware UTC datetime. -/
def dtA : PyDateTime := { iso := s2c "2024-01-02T03:04:05+00:00", aware := true }

/-- Second sample clock value, later than `dtA`. -/
def dtB : PyDateTime := { iso := s2c "2024-05-06T07:08:09+00:00", aware := true }

/-- Sample `published` timestamp claimed by a source page, distinct from both
clock values. -/
def dtPub : PyDateTime := { iso := s2c "2020-01-01T00:00:00+00:00", aware := true }

/-- Sample outgoing mention used by the closed statements: a source post with
one target, a reply with its unnormalized microformat property name, a title
and a body. -/
def sampleOut : Webmention :=
  { mkWebmention (s2c "https://me.example/post/hello")
      (s2c "https://a.example/x") .OUT with
      content := some (s2c "hello world")
      mention_type := s2c "reply"
      mention_type_raw := some (s2c "in-reply-to")
      title := some (s2c "A Title")
      published := some dtPub }

/-- Sample payload filler: the source page claims `published = dtPub` and
nothing else (models a page whose microformats expose only a publication
time). -/
def sampleFill : PayloadFill := fun _ m => { m with published := some dtPub }

/-- Sample incoming-request data. -/
def sampleSource : Str := s2c "https://src.example/p1"

/-- Sample incoming-request target. -/
def sampleTarget : Str := s2c "https://me.example/post/hello"

/-- Sample target URL A (recorded previously, absent from the new content). -/
def urlA : Str := s2c "https://a.example/one"

/-- Sample target URL B (recorded previously and still present). -/
def urlB : Str := s2c "https://b.example/two"

/-- Sample target URL C (newly appearing). -/
def urlC : Str := s2c "https://c.example/three"

/-- The dict contribution of a single scanned line. -/
def entryOf (l : Str) : PyDict :=
  match matchMetaLine l with
  | some kv => [(kv.1, MVal.s kv.2)]
  | none => []

/-- Invariant of a mention store populated only by `mark_sent`: every file's
parsed metadata carries the PENDING status. -/
def PendingInv (fs : FileSys) : Prop :=
  ∀ e ∈ fs, dGet (parse_metadata e.2) (s2c "status") =
    some (MVal.s pendingStatusValue)

/-- Invariant of a mention store populated only by `mark_sent`: every file is
the serialization of a well-formed mention whose status is PENDING and whose
mention type is a `from_raw` fixed point (as the dataclass default `unknown`
is). -/
def MarkSentInv (fs : FileSys) : Prop :=
  ∀ e ∈ fs, ∃ m, WFW m ∧ m.status = pendingStatusValue ∧
    WebmentionType.from_raw (some m.mention_type) = m.mention_type ∧
    e.2 = format_webmention_markdown m

/-- Sample `mark_sent` operation sequence (source, target, clock, fault) used
to instantiate the C10 statement: two successful sends and one failed one,
with a repeated source URL. -/
def opsC10 : List (Str × Str × PyDateTime × WriteFault) :=
  [(urlA, urlB, dtA, .ok), (urlA, urlC, dtB, .failReplace), (urlB, urlA, dtB, .ok)]

/-- Driving `mark_sent` over a sequence of (source, target, clock, fault)
operations, keeping the previous store when one raises. -/
def markSentApply (hash : Str → Str) (fs : FileSys)
    (ops : List (Str × Str × PyDateTime × WriteFault)) : FileSys :=
  ops.foldl
    (fun fs op =>
      match mark_sent hash op.2.2.1 op.2.2.2 fs op.1 op.2.1 with
      | .ok r => r.1
      | .error _ => fs)
    fs

/-- Sample confirmed incoming mention (as the storage would hold after the
moderation flow confirms it). -/
def sampleIn : Webmention :=
  { mkWebmention sampleSource sampleTarget .IN with
      status := confirmedStatusValue
      published := some dtPub
      created_at := some dtA
      updated_at := some dtA
      content := some (s2c "hi") }

/-- Sample malformed stored record: claims confirmed status but lacks the
mandatory source/target metadata, so `Webmention.build` raises on it. -/
def badContent : Str :=
  s2c "[//]: # (status: confirmed)\n\nno source here\n"

/-- Sample content-tree snapshot for the watcher statements: a single
markdown file. -/
def sampleWatchFs : WatchFs :=
  { isFile := fun p => p == s2c "post.md"
    readText := fun p => if p == s2c "post.md" then some (s2c "hello") else none }

-- ===================================================================
-- Theorems
-- ===================================================================

/-- C1, counterexample: with previous outgoing target set `{A, B}` and newly
extracted set `{B, C}`, the added pool does not receive exactly `{C}` — the
unchanged target `B` is also notified as added, because the code iterates over
all of `sorted(new_targets)` and never computes `new - old`. -/
theorem c1_added_includes_unchanged_target :
    urlB ∈ (process_outgoing_dispatch {urlB, urlC} {urlA, urlB}).added ∧
    (process_outgoing_dispatch {urlB, urlC} {urlA, urlB}).added ≠ ({urlC} : Finset Str) := by
  constructor
  · decide
  · decide

/-- C1, amended: given previous target set `{A, B}` and new target set
`{B, C}` (with `A` distinct from `B` and `C`), the added pool is handed the
whole new set `{B, C}` — including the unchanged `B` — and the removed pool
exactly `{A}`, which is notified and then deleted. -/
theorem c1_outgoing_dispatch_amended (A B C : Str)
    (hAB : A ≠ B) (hAC : A ≠ C) :
    process_outgoing_dispatch {B, C} {A, B} =
      { added := {B, C}, removed := {A} } ∧
    B ∈ (process_outgoing_dispatch {B, C} {A, B}).added ∧
    B ∉ (process_outgoing_dispatch {B, C} {A, B}).removed := by
  have hrem : ({A, B} : Finset Str) \ {B, C} = {A} := by
    ext x
    simp only [Finset.mem_sdiff, Finset.mem_insert, Finset.mem_singleton]
    constructor
    · rintro ⟨hx | hx, hnot⟩
      · exact hx
      · exact absurd (Or.inl hx) hnot
    · rintro rfl
      exact ⟨Or.inl rfl, fun h => h.elim (fun h1 => hAB h1) (fun h2 => hAC h2)⟩
  refine ⟨?e, ?mem, ?nmem⟩
  · simp only [process_outgoing_dispatch, hrem]
  · simp [process_outgoing_dispatch]
  · simp only [process_outgoing_dispatch, hrem, Finset.mem_singleton]
    exact fun h => hAB h.symm

/-- C1, witness for the amended theorem at the sample URLs. -/
theorem c1_outgoing_dispatch_amended_witness :
    process_outgoing_dispatch {urlB, urlC} {urlA, urlB} =
      { added := {urlB, urlC}, removed := {urlA} } ∧
    urlB ∈ (process_outgoing_dispatch {urlB, urlC} {urlA, urlB}).added ∧
    urlB ∉ (process_outgoing_dispatch {urlB, urlC} {urlA, urlB}).removed :=
  c1_outgoing_dispatch_amended urlA urlB urlC (by decide) (by decide)

/-- Unfolded component view of a mention's storage path. -/
theorem store_path_components (hash : Str → Str) (m : Webmention) :
    store_webmention_path hash m =
      [s2c "mentions", m.direction.value, owningSlug m,
       generate_mention_filename hash m.source (s2c "webmention")] := by
  cases h : m.direction <;>
    simp [store_webmention_path, post_mentions_dir, owningSlug, h,
      WebmentionDirection.value]

/-- C2, counterexample: two webmentions with the same source, direction
OUTGOING and different targets have distinct identity keys but are mapped to
the same storage file path, because the filename is derived from the source
URL for both directions. -/
theorem c2_outgoing_path_collision :
    (sampleOut.source, sampleOut.target, sampleOut.direction) ≠
      (sampleOut.source, s2c "https://b.example/y", sampleOut.direction) ∧
    store_webmention_path hashStub sampleOut =
      store_webmention_path hashStub
        { sampleOut with target := s2c "https://b.example/y" } := by
  constructor
  · decide
  · decide

set_option maxHeartbeats 1000000 in
/-- C2, amended: the storage path is a deterministic function of the
direction, the owning URL's slug and the source URL alone — the filename is
derived from the source for both directions.  Consequently any two outgoing
mentions with the same source collide regardless of their targets; and
(assuming 8-character hash values, as `hexdigest()[:8]` produces) two
mentions share a path exactly when they agree on direction, owning slug,
sanitized source domain and source hash. -/
theorem c2_path_structure_amended :
    (∀ (hash : Str → Str) (m1 m2 : Webmention),
        m1.direction = .OUT → m2.direction = .OUT → m1.source = m2.source →
        store_webmention_path hash m1 = store_webmention_path hash m2) ∧
    (∀ (hash : Str → Str), (∀ u, (hash u).length = 8) →
      ∀ m1 m2 : Webmention,
        store_webmention_path hash m1 = store_webmention_path hash m2 →
        m1.direction = m2.direction ∧ owningSlug m1 = owningSlug m2 ∧
        sanitizedDomain m1.source = sanitizedDomain m2.source ∧
        hash m1.source = hash m2.source) := by
  constructor
  · intro hash m1 m2 h1 h2 hsrc
    rw [store_path_components, store_path_components, h1, h2, hsrc,
      owningSlug, owningSlug, h1, h2, hsrc]
  · intro hash hlen m1 m2 hpath
    rw [store_path_components, store_path_components] at hpath
    simp only [List.cons.injEq] at hpath
    obtain ⟨-, hdir, hslug, hfile, -⟩ := hpath
    have hdir2 : m1.direction = m2.direction := by
      cases hd1 : m1.direction <;> cases hd2 : m2.direction <;>
        first
        | rfl
        | (rw [hd1, hd2] at hdir; exact absurd hdir (by decide))
    refine ⟨hdir2, hslug, ?dom⟩
    unfold generate_mention_filename at hfile
    rw [List.append_assoc, List.append_assoc, List.append_assoc,
      List.append_assoc, List.append_assoc, List.append_assoc] at hfile
    have hfile2 := List.append_cancel_left hfile
    have hfile3 := List.append_cancel_left hfile2
    have hsplit := List.append_inj' hfile3 (by
      simp only [List.length_append, List.length_cons, hlen])
    obtain ⟨hdom, htail⟩ := hsplit
    refine ⟨hdom, ?hsh⟩
    simp only [List.cons_append, List.nil_append, List.cons.injEq, true_and] at htail
    exact (List.append_inj htail (by rw [hlen, hlen])).1

/-- C2, witness for the amended theorem: instantiate the collision half at the
sample outgoing mention and the structure half at the stub hash. -/
theorem c2_path_structure_amended_witness :
    store_webmention_path hashStub sampleOut =
      store_webmention_path hashStub
        { sampleOut with target := s2c "https://b.example/y" } ∧
    (store_webmention_path hashStub sampleOut =
        store_webmention_path hashStub sampleOut →
      sampleOut.direction = sampleOut.direction ∧
      owningSlug sampleOut = owningSlug sampleOut ∧
      sanitizedDomain sampleOut.source = sanitizedDomain sampleOut.source ∧
      hashStub sampleOut.source = hashStub sampleOut.source) :=
  ⟨c2_path_structure_amended.1 hashStub sampleOut
      { sampleOut with target := s2c "https://b.example/y" }
      (by decide) (by decide) (by decide),
    c2_path_structure_amended.2 hashStub (fun _ => rfl) sampleOut sampleOut⟩

/-- Lookup distributes over file-system concatenation (first match wins). -/
theorem fsGet_append (a b : FileSys) (p : FsPath) :
    fsGet (a ++ b) p =
      match fsGet a p with
      | some c => some c
      | none => fsGet b p := by
  induction a with
  | nil => simp [fsGet]
  | cons e t ih =>
    by_cases h : e.1 = p
    · simp [fsGet, List.find?, h]
    · have hb : (e.1 == p) = false := beq_eq_false_iff_ne.mpr h
      simpa [fsGet, List.find?, hb] using ih

/-- Lookup on a cons cell. -/
theorem fsGet_cons (e : FsPath × Str) (t : FileSys) (q : FsPath) :
    fsGet (e :: t) q = if e.1 = q then some e.2 else fsGet t q := by
  by_cases h : e.1 = q
  · simp [fsGet, List.find?, h]
  · have hb : (e.1 == q) = false := beq_eq_false_iff_ne.mpr h
    simp [fsGet, List.find?, hb, h]

/-- Deletion on a cons cell. -/
theorem fsDel_cons (e : FsPath × Str) (t : FileSys) (p : FsPath) :
    fsDel (e :: t) p = if e.1 = p then fsDel t p else e :: fsDel t p := by
  by_cases h : e.1 = p <;> simp [fsDel, List.filter_cons, h]

/-- Deleting a path removes it. -/
theorem fsGet_fsDel_self (fs : FileSys) (p : FsPath) :
    fsGet (fsDel fs p) p = none := by
  induction fs with
  | nil => rfl
  | cons e t ih =>
    rw [fsDel_cons]
    by_cases h : e.1 = p
    · rw [if_pos h]; exact ih
    · rw [if_neg h, fsGet_cons, if_neg h]; exact ih

/-- Deleting one path leaves the others untouched. -/
theorem fsGet_fsDel_ne (fs : FileSys) (p q : FsPath) (h : q ≠ p) :
    fsGet (fsDel fs p) q = fsGet fs q := by
  induction fs with
  | nil => rfl
  | cons e t ih =>
    rw [fsDel_cons, fsGet_cons]
    by_cases he : e.1 = p
    · rw [if_pos he, ih, if_neg (fun hq => h (hq.symm.trans he))]
    · rw [if_neg he, fsGet_cons]
      by_cases heq : e.1 = q
      · rw [if_pos heq, if_pos heq]
      · rw [if_neg heq, if_neg heq]; exact ih

/-- Writing a path makes its content visible. -/
theorem fsGet_fsSet_self (fs : FileSys) (p : FsPath) (c : Str) :
    fsGet (fsSet fs p c) p = some c := by
  rw [fsSet, fsGet_append, fsGet_fsDel_self]
  simp [fsGet, List.find?]

/-- Writing one path leaves the others untouched. -/
theorem fsGet_fsSet_ne (fs : FileSys) (p q : FsPath) (c : Str) (h : q ≠ p) :
    fsGet (fsSet fs p c) q = fsGet fs q := by
  rw [fsSet, fsGet_append, fsGet_fsDel_ne fs p q h]
  cases hg : fsGet fs q with
  | some v => rfl
  | none =>
    have hb : (p == q) = false := beq_eq_false_iff_ne.mpr (fun hq => h hq.symm)
    simp [fsGet, List.find?, hb]

/-- A failing atomic write returns an error. -/
theorem atomic_write_fails (fs : FileSys) (p : FsPath) (c : Str)
    (fault : WriteFault) (h : fault ≠ .ok) :
    (atomic_write fs p c fault).toOption = none := by
  cases fault with
  | ok => exact absurd rfl h
  | failWrite pc => rfl
  | failReplace => rfl

/-- C9: the atomic write contract of `_atomic_write` and its use by
`store_webmention`.  On success the target file holds exactly the new content
and the temporary sibling is gone; on any failure the write errors out, the
pre-existing content at the target path is untouched and the temporary file
has been removed; unrelated paths are never affected; and a failing write
makes the enclosing `store_webmention` raise to its caller. -/
theorem c9_atomic_write (fs : FileSys) (filepath : FsPath) (content : Str)
    (htmp : withSuffixTmp filepath ≠ filepath) :
    (atomic_write fs filepath content .ok =
        .ok (atomic_write_fs fs filepath content .ok) ∧
      fsGet (atomic_write_fs fs filepath content .ok) filepath = some content ∧
      fsGet (atomic_write_fs fs filepath content .ok) (withSuffixTmp filepath) = none) ∧
    (∀ fault, fault ≠ .ok →
      (atomic_write fs filepath content fault).toOption = none ∧
      fsGet (atomic_write_fs fs filepath content fault) filepath = fsGet fs filepath ∧
      fsGet (atomic_write_fs fs filepath content fault) (withSuffixTmp filepath) = none) ∧
    (∀ q, q ≠ filepath → q ≠ withSuffixTmp filepath → ∀ fault,
      fsGet (atomic_write_fs fs filepath content fault) q = fsGet fs q) ∧
    (∀ (hash : Str → Str) (now : PyDateTime) (m : Webmention) (fault : WriteFault),
      fault ≠ .ok →
      (store_webmention hash now fault fs m).toOption = none) := by
  refine ⟨⟨rfl, ?okSelf, ?okTmp⟩, ?fails, ?frame, ?prop⟩
  · rw [atomic_write_fs]
    exact fsGet_fsSet_self _ _ _
  · rw [atomic_write_fs]
    rw [fsGet_fsSet_ne _ _ _ _ htmp, fsGet_fsDel_self]
  · intro fault hf
    refine ⟨atomic_write_fails fs filepath content fault hf, ?unch, ?tmpGone⟩
    · cases fault with
      | ok => exact absurd rfl hf
      | failWrite pc =>
        rw [atomic_write_fs, fsGet_fsDel_ne _ _ _ (fun h => htmp h.symm),
          fsGet_fsSet_ne _ _ _ _ (fun h => htmp h.symm)]
      | failReplace =>
        rw [atomic_write_fs, fsGet_fsDel_ne _ _ _ (fun h => htmp h.symm),
          fsGet_fsSet_ne _ _ _ _ (fun h => htmp h.symm)]
    · cases fault with
      | ok => exact absurd rfl hf
      | failWrite pc => rw [atomic_write_fs, fsGet_fsDel_self]
      | failReplace => rw [atomic_write_fs, fsGet_fsDel_self]
  · intro q hq hqt fault
    cases fault with
    | ok =>
      rw [atomic_write_fs, fsGet_fsSet_ne _ _ _ _ hq,
        fsGet_fsDel_ne _ _ _ hqt, fsGet_fsSet_ne _ _ _ _ hqt]
    | failWrite pc =>
      rw [atomic_write_fs, fsGet_fsDel_ne _ _ _ hqt,
        fsGet_fsSet_ne _ _ _ _ hqt]
    | failReplace =>
      rw [atomic_write_fs, fsGet_fsDel_ne _ _ _ hqt,
        fsGet_fsSet_ne _ _ _ _ hqt]
  · intro hash now m fault hf
    rw [store_webmention]
    cases hfg : fsGet fs (store_webmention_path hash m) with
    | none =>
      simp only
      cases fault with
      | ok => exact absurd rfl hf
      | failWrite pc => rfl
      | failReplace => rfl
    | some existing =>
      simp only
      by_cases hemp : (parse_metadata existing).isEmpty
      · simp only [hemp, if_true]
        cases fault with
        | ok => exact absurd rfl hf
        | failWrite pc => rfl
        | failReplace => rfl
      · simp only [hemp, if_false]
        cases hb : Webmention.build (parse_metadata existing) .IN with
        | error e => rfl
        | ok parsed =>
          cases fault with
          | ok => exact absurd rfl hf
          | failWrite pc => rfl
          | failReplace => rfl

/-- C9, witness: the contract applied to the empty file system and a sample
`.md` path (success visibility and failure propagation components). -/
theorem c9_atomic_write_witness :
    (atomic_write [] [s2c "mentions", s2c "webmention-a-b.md"] (s2c "x") .ok =
        .ok (atomic_write_fs [] [s2c "mentions", s2c "webmention-a-b.md"] (s2c "x") .ok)) ∧
    (atomic_write [] [s2c "mentions", s2c "webmention-a-b.md"] (s2c "x")
        .failReplace).toOption = none :=
  ⟨(c9_atomic_write [] [s2c "mentions", s2c "webmention-a-b.md"] (s2c "x")
      (by decide)).1.1,
    ((c9_atomic_write [] [s2c "mentions", s2c "webmention-a-b.md"] (s2c "x")
      (by decide)).2.1 .failReplace (by decide)).1⟩

/-- C3, counterexample: a successful (HTTP 200) fetch whose body does not
contain the target verbatim is not rejected as an invalid request — the
parser raises `WebmentionGone` and the processor handles it as a retraction,
returning success-with-no-store (`.ok ([], none)`, not an error). -/
theorem c3_target_missing_not_invalid :
    wm_parse none sampleFill { status := 200, body := s2c "no link here" }
        (some sampleSource) (some sampleTarget) =
      .error (.gone (s2c "Target URL not found in source content")) ∧
    process_incoming_webmention hashStub false none sampleFill dtA dtB .ok []
        { status := 200, body := s2c "no link here" }
        (some sampleSource) (some sampleTarget) = .ok ([], none) := by
  constructor
  · decide
  · decide

/-- C3, amended: when the fetch of the source succeeds (not 404/410, not an
error status) but the target does not occur verbatim in the body, the parser
raises `WebmentionGone` — with the descriptive message "Target URL not found
in source content" — and `process_incoming_webmention` treats the case as a
retraction: it deletes any stored mention for the key and returns `None`
(here, on an empty store, it persists nothing and returns `.ok ([], none)`);
it is not an invalid-request rejection. -/
theorem c3_target_missing_gone_amended (fill : PayloadFill) (hash : Str → Str)
    (hd : Bool) (hNow sNow : PyDateTime) (fault : WriteFault) (resp : HttpResp)
    (s t : Str) (hs : s ≠ []) (ht : t ≠ [])
    (h404 : resp.status ≠ 404) (h410 : resp.status ≠ 410)
    (hlt : resp.status < 400)
    (hbody : strContainsSub resp.body t = false) :
    wm_parse none fill resp (some s) (some t) =
      .error (.gone (s2c "Target URL not found in source content")) ∧
    process_incoming_webmention hash hd none fill hNow sNow fault [] resp
      (some s) (some t) = .ok ([], none) := by
  have hsE : s.isEmpty = false := by
    cases s with
    | nil => exact absurd rfl hs
    | cons a l => rfl
  have htE : t.isEmpty = false := by
    cases t with
    | nil => exact absurd rfl ht
    | cons a l => rfl
  have hge : ¬resp.status ≥ 400 := Nat.not_le.mpr hlt
  have hparse : wm_parse none fill resp (some s) (some t) =
      .error (.gone (s2c "Target URL not found in source content")) := by
    simp only [wm_parse, hsE, htE, Bool.or_self, Bool.false_or, Bool.not_true,
      Bool.or_false, if_false, decide_eq_true_eq]
    simp [h404, h410, hge, hbody]
  refine ⟨hparse, ?proc⟩
  simp only [process_incoming_webmention, hparse]
  rfl

/-- C3, witness for the amended theorem at the sample request. -/
theorem c3_target_missing_gone_amended_witness :
    wm_parse none sampleFill { status := 200, body := s2c "nothing" }
        (some sampleSource) (some sampleTarget) =
      .error (.gone (s2c "Target URL not found in source content")) ∧
    process_incoming_webmention hashStub true none sampleFill dtA dtB
        .failReplace [] { status := 200, body := s2c "nothing" }
        (some sampleSource) (some sampleTarget) = .ok ([], none) :=
  c3_target_missing_gone_amended sampleFill hashStub true dtA dtB .failReplace
    { status := 200, body := s2c "nothing" } sampleSource sampleTarget
    (by decide) (by decide) (by decide) (by decide) (by decide) (by decide)

/-- C5: the claim matches the handler (which stamps `created_at` with the
claimed `published` time), but `store_webmention` unconditionally overwrites
`created_at` with the storage-time clock before writing, so the record
persisted by the first store carries the store time, not the published time.
Here the parsed mention claims `published = dtPub` and has no `created_at`,
yet the file persisted by the first store records `created_at = dtB` (the
store clock) rather than `dtPub`. -/
theorem c5_created_at_clobbered_by_store :
    (wm_parse none sampleFill { status := 200, body := sampleTarget }
        (some sampleSource) (some sampleTarget)).map
      (fun w => (w.published, w.created_at)) = .ok (some dtPub, none) ∧
    (process_incoming_webmention hashStub false none sampleFill dtA dtB .ok []
        { status := 200, body := sampleTarget }
        (some sampleSource) (some sampleTarget)).map
      (fun r => r.2.bind (fun p =>
        dGet (parse_metadata ((fsGet r.1 p).getD [])) (s2c "created_at"))) =
      .ok (some (.s dtB.iso)) ∧
    dtB.iso ≠ dtPub.iso := by
  refine ⟨?parse, ?stored, ?ne⟩
  · decide
  · decide
  · decide

/-- A list is a prefix of itself extended. -/
theorem hasPfx_append (a b : Str) : hasPfx a (a ++ b) = true := by
  induction a with
  | nil => rfl
  | cons c t ih => simp [hasPfx, ih]

/-- First-occurrence split of a list that visibly contains the separator. -/
theorem splitFirst_append (c : Char) (a b : Str) (h : c ∉ a) :
    splitFirst c (a ++ c :: b) = some (a, b) := by
  induction a with
  | nil => simp [splitFirst]
  | cons x t ih =>
    have hx : x ≠ c := fun he => h (he ▸ List.mem_cons_self x t)
    have ht : c ∉ t := fun hm => h (List.mem_cons_of_mem x hm)
    simp [splitFirst, hx, ih ht]

/-- Scanning a serialized metadata line recovers its key and value (an empty
value never matches, since the regex demands at least one value character). -/
theorem matchMetaLine_metaLine (k v : Str) (hk0 : k ≠ []) (hkc : ':' ∉ k) :
    matchMetaLine (metaLine k v) =
      if v = [] then none else some (pyStrip k, pyStrip v) := by
  have hline : metaLine k v =
      s2c "[//]: # (" ++ (k ++ ':' :: ' ' :: (v ++ [')'])) := by
    simp [metaLine, s2c, List.append_assoc]
  rw [hline, matchMetaLine]
  rw [hasPfx_append]
  simp only [if_true]
  rw [show (9 : Nat) = (s2c "[//]: # (").length from rfl, List.drop_left,
    splitFirst_append _ _ _ hkc]
  simp only [if_neg hk0]
  have hrev : (v ++ [')']).reverse = ')' :: v.reverse := by simp
  rw [hrev, List.dropWhile_cons]
  simp only [decide_eq_true_eq, ne_eq, not_true_eq_false, decide_False,
    Bool.false_eq_true, if_false, List.reverse_reverse]

/-- A newline-free chunk followed by a newline contributes one whole line. -/
theorem splitLines_append_nl (l t : Str) (h : '\n' ∉ l) :
    splitLines (l ++ '\n' :: t) = l :: splitLines t := by
  induction l with
  | nil => simp [splitLines]
  | cons c cs ih =>
    have hc : c ≠ '\n' := fun he => h (he ▸ List.mem_cons_self c cs)
    have hcs : '\n' ∉ cs := fun hm => h (List.mem_cons_of_mem c hm)
    rw [List.cons_append, splitLines, if_neg hc, ih hcs]

/-- Joined newline-terminated lines split back into those lines followed by
the split of the remainder. -/
theorem splitLines_joinNl (ls : List Str) (t : Str)
    (h : ∀ l ∈ ls, '\n' ∉ l) :
    splitLines (joinNl ls ++ t) = ls ++ splitLines t := by
  induction ls with
  | nil => simp [joinNl]
  | cons l rest ih =>
    have hl : '\n' ∉ l := h l (List.mem_cons_self l rest)
    have hrest : ∀ x ∈ rest, '\n' ∉ x := fun x hx => h x (List.mem_cons_of_mem l hx)
    have : joinNl (l :: rest) ++ t = l ++ '\n' :: (joinNl rest ++ t) := by
      simp [joinNl, List.append_assoc]
    rw [this, splitLines_append_nl l _ hl, ih hrest, List.cons_append]

/-- The metadata fold over concatenated line lists. -/
theorem pmFold_append (a b : List Str) (d : PyDict) :
    pmFold (a ++ b) d = pmFold b (pmFold a d) := by
  simp [pmFold, List.foldl_append]

/-- Lines that are not metadata comments contribute nothing. -/
theorem pmFold_none (lines : List Str) (d : PyDict)
    (h : ∀ l ∈ lines, matchMetaLine l = none) : pmFold lines d = d := by
  induction lines with
  | nil => rfl
  | cons l rest ih =>
    have hl := h l (List.mem_cons_self l rest)
    have hrest : ∀ x ∈ rest, matchMetaLine x = none :=
      fun x hx => h x (List.mem_cons_of_mem l hx)
    simp only [pmFold, List.foldl_cons, hl]
    exact ih hrest

/-- The fold's accumulator only ever grows on the right. -/
theorem pmFold_acc (lines : List Str) (d : PyDict) :
    pmFold lines d = d ++ pmFold lines [] := by
  induction lines generalizing d with
  | nil => simp [pmFold]
  | cons l rest ih =>
    cases hl : matchMetaLine l with
    | none =>
      simp only [pmFold, List.foldl_cons, hl]
      exact ih d
    | some kv =>
      simp only [pmFold, List.foldl_cons, hl, List.nil_append]
      rw [show List.foldl _ (d ++ [(kv.1, MVal.s kv.2)]) rest =
          pmFold rest (d ++ [(kv.1, MVal.s kv.2)]) from rfl,
        show List.foldl _ [(kv.1, MVal.s kv.2)] rest =
          pmFold rest [(kv.1, MVal.s kv.2)] from rfl,
        ih (d ++ [(kv.1, MVal.s kv.2)]), ih [(kv.1, MVal.s kv.2)],
        List.append_assoc]

/-- Dict lookup across concatenation: the right part wins. -/
theorem dGet_append (d1 d2 : PyDict) (k : Str) :
    dGet (d1 ++ d2) k =
      match dGet d2 k with
      | some v => some v
      | none => dGet d1 k := by
  unfold dGet
  rw [List.reverse_append, List.find?_append]
  cases h : List.find? (fun e => e.1 == k) d2.reverse with
  | some e => simp [Option.or, h]
  | none => simp [Option.or, h]

/-- Lookup in a single-entry dict at its own key. -/
theorem dGet_singleton_self (k : Str) (v : MVal) : dGet [(k, v)] k = some v := by
  simp [dGet, List.find?]

/-- Lookup in a single-entry dict at a different key. -/
theorem dGet_singleton_ne (k' k : Str) (v : MVal) (h : k' ≠ k) :
    dGet [(k', v)] k = none := by
  simp [dGet, List.find?, beq_eq_false_iff_ne.mpr h]

/-- A key that occurs in no pair is absent from the rendered entries. -/
theorem dGet_optEntries_not_mem (ps : List (Str × Option Str)) (k : Str)
    (h : k ∉ ps.map Prod.fst) : dGet (optEntries ps) k = none := by
  induction ps with
  | nil => rfl
  | cons e rest ih =>
    obtain ⟨ek, ev⟩ := e
    have hne : ek ≠ k := fun he =>
      h (by rw [← he]; exact List.mem_cons_self _ _)
    have hrest : k ∉ rest.map Prod.fst := fun hm =>
      h (List.mem_cons_of_mem _ hm)
    cases ev with
    | none =>
      have : optEntries ((ek, none) :: rest) = optEntries rest := by
        simp [optEntries, List.filterMap_cons]
      rw [this]
      exact ih hrest
    | some v =>
      have : optEntries ((ek, some v) :: rest) =
          [(ek, MVal.s v)] ++ optEntries rest := by
        simp [optEntries, List.filterMap_cons]
      rw [this, dGet_append, ih hrest, dGet_singleton_ne ek k (MVal.s v) hne]

/-- With duplicate-free keys, lookup in the rendered entries agrees with the
first matching pair. -/
theorem dGet_optEntries_nodup (ps : List (Str × Option Str)) (k : Str)
    (hnd : (ps.map Prod.fst).Nodup) :
    dGet (optEntries ps) k =
      match ps.find? (fun e => e.1 == k) with
      | some e => e.2.map MVal.s
      | none => none := by
  induction ps with
  | nil => rfl
  | cons e rest ih =>
    obtain ⟨ek, ev⟩ := e
    rw [List.map_cons, List.nodup_cons] at hnd
    by_cases hk : ek = k
    · have habs : k ∉ rest.map Prod.fst := hk ▸ hnd.1
      have hfind : List.find? (fun e => e.1 == k) ((ek, ev) :: rest) =
          some (ek, ev) := by
        simp [List.find?, hk]
      rw [hfind]
      cases ev with
      | none =>
        have : optEntries ((ek, none) :: rest) = optEntries rest := by
          simp [optEntries, List.filterMap_cons]
        rw [this, dGet_optEntries_not_mem rest k habs]
        rfl
      | some v =>
        have : optEntries ((ek, some v) :: rest) =
            [(ek, MVal.s v)] ++ optEntries rest := by
          simp [optEntries, List.filterMap_cons]
        rw [this, dGet_append, dGet_optEntries_not_mem rest k habs, hk,
          dGet_singleton_self]
        rfl
    · have hfind : List.find? (fun e => e.1 == k) ((ek, ev) :: rest) =
          List.find? (fun e => e.1 == k) rest := by
        simp [List.find?, beq_eq_false_iff_ne.mpr hk]
      rw [hfind]
      cases ev with
      | none =>
        have : optEntries ((ek, none) :: rest) = optEntries rest := by
          simp [optEntries, List.filterMap_cons]
        rw [this]
        exact ih hnd.2
      | some v =>
        have hsplit : optEntries ((ek, some v) :: rest) =
            [(ek, MVal.s v)] ++ optEntries rest := by
          simp [optEntries, List.filterMap_cons]
        rw [hsplit, dGet_append, ih hnd.2,
          dGet_singleton_ne ek k (MVal.s v) hk]
        cases hf : List.find? (fun e => e.1 == k) rest with
        | none => rfl
        | some e2 =>
          obtain ⟨k2, v2⟩ := e2
          cases v2 with
          | none => rfl
          | some v2x => rfl

/-- The metadata fold over serialized well-formed pairs recovers exactly the
rendered entries. -/
theorem pmFold_lines_optEntries (ps : List (Str × Option Str)) (d : PyDict)
    (hk : ∀ e ∈ ps, KeyOK e.1)
    (hv : ∀ e ∈ ps, ∀ v, e.2 = some v → v ≠ [] ∧ pyStrip v = v) :
    pmFold (ps.filterMap (fun e => e.2.map (fun v => metaLine e.1 v))) d =
      d ++ optEntries ps := by
  induction ps generalizing d with
  | nil => simp [optEntries, pmFold]
  | cons e rest ih =>
    obtain ⟨ek, ev⟩ := e
    have hke := hk (ek, ev) (List.mem_cons_self _ rest)
    have hkrest : ∀ x ∈ rest, KeyOK x.1 :=
      fun x hx => hk x (List.mem_cons_of_mem _ hx)
    have hvrest : ∀ x ∈ rest, ∀ v, x.2 = some v → v ≠ [] ∧ pyStrip v = v :=
      fun x hx => hv x (List.mem_cons_of_mem _ hx)
    cases ev with
    | none =>
      have hoe : optEntries ((ek, none) :: rest) = optEntries rest := by
        simp [optEntries, List.filterMap_cons]
      rw [List.filterMap_cons, hoe]
      exact ih d hkrest hvrest
    | some v =>
      obtain ⟨hv0, hvs⟩ := hv (ek, some v) (List.mem_cons_self _ rest) v rfl
      have hmatch : matchMetaLine (metaLine ek v) = some (ek, v) := by
        rw [matchMetaLine_metaLine ek v hke.1 hke.2.1, if_neg hv0,
          hke.2.2.1, hvs]
      have hoe : optEntries ((ek, some v) :: rest) =
          (ek, MVal.s v) :: optEntries rest := by
        simp [optEntries, List.filterMap_cons]
      rw [List.filterMap_cons, hoe]
      show pmFold (metaLine ek v ::
          rest.filterMap (fun e => e.2.map (fun v => metaLine e.1 v))) d =
        d ++ (ek, MVal.s v) :: optEntries rest
      have hstep : pmFold (metaLine ek v ::
            rest.filterMap (fun e => e.2.map (fun v => metaLine e.1 v))) d =
          pmFold (rest.filterMap (fun e => e.2.map (fun v => metaLine e.1 v)))
            (d ++ [(ek, MVal.s v)]) := by
        simp [pmFold, List.foldl_cons, hmatch]
      rw [hstep, ih (d ++ [(ek, MVal.s v)]) hkrest hvrest, List.append_assoc]
      rfl

/-- Newlines cannot occur in a serialized metadata line whose key and value
are newline-free. -/
theorem nl_not_mem_metaLine (k v : Str) (hk : '\n' ∉ k) (hv : '\n' ∉ v) :
    '\n' ∉ metaLine k v := by
  intro hmem
  rw [metaLine] at hmem
  simp only [List.mem_append, List.mem_singleton] at hmem
  rcases hmem with (((h1 | h2) | h3) | h4) | h5
  · exact absurd h1 (by decide)
  · exact hk h2
  · exact absurd h3 (by decide)
  · exact hv h4
  · exact absurd h5 (by decide)

/-- Every key of the rendered metadata is a well-formed concrete field name,
and under `WFW` every present value is well-formed. -/
theorem metaPairs_wf (m : Webmention) (h : WFW m) :
    (∀ e ∈ metaPairs m, KeyOK e.1) ∧
    (∀ e ∈ metaPairs m, ∀ v, e.2 = some v → WFVal v) := by
  constructor
  · simp only [metaPairs, List.forall_mem_cons]
    exact ⟨by decide, by decide, by decide, by decide, by decide, by decide,
      by decide, by decide, by decide, by decide, by decide, by decide,
      by decide, by decide, fun x hx => absurd hx (List.not_mem_nil x)⟩
  · simp only [metaPairs, List.forall_mem_cons]
    refine ⟨?src, ?tgt, ?dir, ?ttl, ?exc, ?an, ?au, ?ap, ?pub, ?st, ?mt,
      ?mtr, ?ca, ?ua, fun x hx => absurd hx (List.not_mem_nil x)⟩
    · exact fun v hv => (Option.some.inj hv) ▸ h.source
    · exact fun v hv => (Option.some.inj hv) ▸ h.target
    · intro v hv
      cases hd : m.direction <;> rw [hd] at hv <;>
        exact (Option.some.inj hv) ▸ (by decide)
    · exact h.title
    · exact h.excerpt
    · exact h.author_name
    · exact h.author_url
    · exact h.author_photo
    · intro v hv
      cases hp : m.published with
      | none => rw [hp] at hv; exact Option.noConfusion hv
      | some d =>
        rw [hp] at hv
        exact (Option.some.inj hv) ▸ (h.published d hp).2.2.2
    · exact fun v hv => (Option.some.inj hv) ▸ h.status
    · exact fun v hv => (Option.some.inj hv) ▸ h.mention_type
    · exact h.mention_type_raw
    · intro v hv
      cases hp : m.created_at with
      | none => rw [hp] at hv; exact Option.noConfusion hv
      | some d =>
        rw [hp] at hv
        exact (Option.some.inj hv) ▸ (h.created_at d hp).2.2.2
    · intro v hv
      cases hp : m.updated_at with
      | none => rw [hp] at hv; exact Option.noConfusion hv
      | some d =>
        rw [hp] at hv
        exact (Option.some.inj hv) ▸ (h.updated_at d hp).2.2.2

/-- Scanning a well-formed serialized mention recovers exactly its rendered
metadata entries. -/
theorem parse_metadata_format (m : Webmention) (h : WFW m) :
    parse_metadata (format_webmention_markdown m) = metaDict m := by
  obtain ⟨hkeys, hvals⟩ := metaPairs_wf m h
  have hnl : ∀ l ∈ metaLinesOf m, '\n' ∉ l := by
    intro l hl
    rw [metaLinesOf] at hl
    obtain ⟨e, he, hv⟩ := List.mem_filterMap.mp hl
    cases he2 : e.2 with
    | none => rw [he2] at hv; exact absurd hv (by simp)
    | some v =>
      rw [he2] at hv
      have hlv : metaLine e.1 v = l := Option.some.inj hv
      have hkv := (hvals e he v he2).2.1
      have hkk := (hkeys e he).2.2.2
      exact hlv ▸ nl_not_mem_metaLine e.1 v hkk hkv
  have hformat : format_webmention_markdown m =
      joinNl (metaLinesOf m) ++
        ('\n' :: ((match m.content with
                   | some c => c
                   | none => s2c "None") ++ ['\n'])) := by
    rw [format_webmention_markdown]
    simp [List.append_assoc]
  rw [parse_metadata, hformat, splitLines_joinNl _ _ hnl, pmFold_append]
  have hsl : splitLines
      ('\n' :: ((match m.content with
                 | some c => c
                 | none => s2c "None") ++ ['\n'])) =
      [] :: splitLines ((match m.content with
                         | some c => c
                         | none => s2c "None") ++ ['\n']) := by
    rw [splitLines]
    simp
  rw [hsl]
  have hnone : ∀ l ∈ ([] :: splitLines
      ((match m.content with
        | some c => c
        | none => s2c "None") ++ ['\n'])), matchMetaLine l = none := by
    intro l hl
    rcases List.mem_cons.mp hl with hl1 | hl2
    · rw [hl1]; rfl
    · exact h.body l hl2
  rw [pmFold_none _ _ hnone, metaLinesOf,
    pmFold_lines_optEntries (metaPairs m) [] hkeys
      (fun e he v hev => ⟨(hvals e he v hev).1, (hvals e he v hev).2.2.2⟩)]
  simp [metaDict]

/-- The rendered metadata keys are pairwise distinct. -/
theorem metaPairs_keys_nodup (m : Webmention) :
    ((metaPairs m).map Prod.fst).Nodup := by
  simp only [metaPairs, List.map_cons, List.map_nil]
  decide

/-- Lookup of `source` in recovered metadata. -/
theorem dGet_metaDict_source (m : Webmention) :
    dGet (metaDict m) (s2c "source") = some (MVal.s m.source) := by
  rw [metaDict, dGet_optEntries_nodup _ _ (metaPairs_keys_nodup m)]
  rfl

/-- Lookup of `target` in recovered metadata. -/
theorem dGet_metaDict_target (m : Webmention) :
    dGet (metaDict m) (s2c "target") = some (MVal.s m.target) := by
  rw [metaDict, dGet_optEntries_nodup _ _ (metaPairs_keys_nodup m)]
  rfl

/-- Lookup of `title` in recovered metadata. -/
theorem dGet_metaDict_title (m : Webmention) :
    dGet (metaDict m) (s2c "title") = m.title.map MVal.s := by
  rw [metaDict, dGet_optEntries_nodup _ _ (metaPairs_keys_nodup m)]
  rfl

/-- Lookup of `excerpt` in recovered metadata. -/
theorem dGet_metaDict_excerpt (m : Webmention) :
    dGet (metaDict m) (s2c "excerpt") = m.excerpt.map MVal.s := by
  rw [metaDict, dGet_optEntries_nodup _ _ (metaPairs_keys_nodup m)]
  rfl

/-- Lookup of `content` in recovered metadata: never present (the serializer
skips the content field; the body is not scanned). -/
theorem dGet_metaDict_content (m : Webmention) :
    dGet (metaDict m) (s2c "content") = none := by
  rw [metaDict, dGet_optEntries_nodup _ _ (metaPairs_keys_nodup m)]
  rfl

/-- Lookup of `author_name` in recovered metadata. -/
theorem dGet_metaDict_author_name (m : Webmention) :
    dGet (metaDict m) (s2c "author_name") = m.author_name.map MVal.s := by
  rw [metaDict, dGet_optEntries_nodup _ _ (metaPairs_keys_nodup m)]
  rfl

/-- Lookup of `author_url` in recovered metadata. -/
theorem dGet_metaDict_author_url (m : Webmention) :
    dGet (metaDict m) (s2c "author_url") = m.author_url.map MVal.s := by
  rw [metaDict, dGet_optEntries_nodup _ _ (metaPairs_keys_nodup m)]
  rfl

/-- Lookup of `author_photo` in recovered metadata. -/
theorem dGet_metaDict_author_photo (m : Webmention) :
    dGet (metaDict m) (s2c "author_photo") = m.author_photo.map MVal.s := by
  rw [metaDict, dGet_optEntries_nodup _ _ (metaPairs_keys_nodup m)]
  rfl

/-- Lookup of `published` in recovered metadata. -/
theorem dGet_metaDict_published (m : Webmention) :
    dGet (metaDict m) (s2c "published") =
      (m.published.map (fun d => d.iso)).map MVal.s := by
  rw [metaDict, dGet_optEntries_nodup _ _ (metaPairs_keys_nodup m)]
  rfl

/-- Lookup of `status` in recovered metadata. -/
theorem dGet_metaDict_status (m : Webmention) :
    dGet (metaDict m) (s2c "status") = some (MVal.s m.status) := by
  rw [metaDict, dGet_optEntries_nodup _ _ (metaPairs_keys_nodup m)]
  rfl

/-- Lookup of `mention_type` in recovered metadata. -/
theorem dGet_metaDict_mention_type (m : Webmention) :
    dGet (metaDict m) (s2c "mention_type") = some (MVal.s m.mention_type) := by
  rw [metaDict, dGet_optEntries_nodup _ _ (metaPairs_keys_nodup m)]
  rfl

/-- Lookup of `mention_type_raw` in recovered metadata. -/
theorem dGet_metaDict_mention_type_raw (m : Webmention) :
    dGet (metaDict m) (s2c "mention_type_raw") = m.mention_type_raw.map MVal.s := by
  rw [metaDict, dGet_optEntries_nodup _ _ (metaPairs_keys_nodup m)]
  rfl

/-- Lookup of `created_at` in recovered metadata. -/
theorem dGet_metaDict_created_at (m : Webmention) :
    dGet (metaDict m) (s2c "created_at") =
      (m.created_at.map (fun d => d.iso)).map MVal.s := by
  rw [metaDict, dGet_optEntries_nodup _ _ (metaPairs_keys_nodup m)]
  rfl

/-- Lookup of `updated_at` in recovered metadata. -/
theorem dGet_metaDict_updated_at (m : Webmention) :
    dGet (metaDict m) (s2c "updated_at") =
      (m.updated_at.map (fun d => d.iso)).map MVal.s := by
  rw [metaDict, dGet_optEntries_nodup _ _ (metaPairs_keys_nodup m)]
  rfl

/-- Lookup of `type` (not a dataclass field) in recovered metadata. -/
theorem dGet_metaDict_type (m : Webmention) :
    dGet (metaDict m) (s2c "type") = none := by
  rw [metaDict, dGet_optEntries_nodup _ _ (metaPairs_keys_nodup m)]
  rfl

/-- Round-trip of `_parse_dt` over a rendered timezone-aware timestamp. -/
theorem parseDt_map_iso (od : Option PyDateTime)
    (h : ∀ d, od = some d → WFDT d) :
    parseDt ((od.map (fun d => d.iso)).map MVal.s) = .ok od := by
  cases od with
  | none => rfl
  | some d =>
    obtain ⟨hiso, haware, hdaw, hval⟩ := h d rfl
    obtain ⟨i, a⟩ := d
    simp only at hiso haware hdaw hval
    subst hdaw
    show parseDt (some (MVal.s i)) = .ok (some ⟨i, true⟩)
    simp only [parseDt, fromisoformat, replaceTzUtc, hval.2.2.2,
      if_neg hval.1, if_pos hiso, haware, if_true]

/-- Reading back an optional string value. -/
theorem getStrOpt_map (o : Option Str) : getStrOpt (o.map MVal.s) = o := by
  cases o <;> rfl

/-- The emptiness test of a non-empty character list. -/
theorem isEmpty_false_of_ne (v : Str) (h : v ≠ []) : v.isEmpty = false := by
  cases v with
  | nil => exact absurd rfl h
  | cons c t => rfl

/-- Rebuilding a well-formed mention from its recovered metadata: every
serialized field survives except that `direction` is reset to `build`'s
`direction` argument, `content` is not recovered (the body is not scanned),
and `mention_type_raw` is re-normalized to the mention type's own value. -/
theorem build_metaDict (m : Webmention) (h : WFW m)
    (ddir : WebmentionDirection)
    (hmt : WebmentionType.from_raw (some m.mention_type) = m.mention_type) :
    Webmention.build (metaDict m) ddir =
      .ok { m with direction := ddir, content := none,
                   mention_type_raw := some m.mention_type } := by
  have hsrcE : m.source.isEmpty = false := isEmpty_false_of_ne _ h.source.1
  have htgtE : m.target.isEmpty = false := isEmpty_false_of_ne _ h.target.1
  have hstE : m.status.isEmpty = false := isEmpty_false_of_ne _ h.status.1
  have hmtE : m.mention_type.isEmpty = false :=
    isEmpty_false_of_ne _ h.mention_type.1
  rw [Webmention.build, dGet_metaDict_source, dGet_metaDict_target,
    dGet_metaDict_mention_type, dGet_metaDict_published,
    dGet_metaDict_created_at, dGet_metaDict_updated_at]
  simp only [pyTruthy, hsrcE, htgtE, Bool.not_false, Bool.not_true,
    Bool.false_eq_true, if_false, hmtE, hmt,
    parseDt_map_iso m.published h.published,
    parseDt_map_iso m.created_at h.created_at,
    parseDt_map_iso m.updated_at h.updated_at]
  rw [dGet_metaDict_title, dGet_metaDict_excerpt, dGet_metaDict_content,
    dGet_metaDict_author_name, dGet_metaDict_author_url,
    dGet_metaDict_author_photo, dGet_metaDict_status]
  simp only [getStrD, getStrOpt_map, hstE, if_false]
  rfl

/-- C6, counterexample: serializing the sample mention and re-parsing it with
the metadata scanner plus `Webmention.build` does not restore it: the
`content` body is not recovered (it comes back `None`), `direction` is reset
to `build`'s default `INCOMING`, and `mention_type_raw` is re-normalized from
`in-reply-to` to `reply`. -/
theorem c6_roundtrip_content_lost :
    (Webmention.build (parse_metadata (format_webmention_markdown sampleOut))
        .IN).map (fun w => (w.content, w.direction, w.mention_type_raw)) =
      .ok (none, .IN, some (s2c "reply")) ∧
    sampleOut.content = some (s2c "hello world") ∧
    sampleOut.direction = .OUT ∧
    sampleOut.mention_type_raw = some (s2c "in-reply-to") := by
  refine ⟨?rt, ?c, ?d, ?r⟩
  · decide
  · decide
  · decide
  · decide

/-- C6, amended: for every well-formed mention (non-empty, newline-free,
strip-invariant field values; timezone-aware ISO timestamps; a body whose
lines are not shaped like metadata comments; a mention type fixed by
`from_raw`), serializing and re-parsing yields a record equal to the original
on source, target, title, excerpt, author fields, published, status,
mention_type, created_at and updated_at — but `content` is not recovered,
`direction` is reset to the `build` caller's direction argument, and
`mention_type_raw` is re-normalized to the mention type's value. -/
theorem c6_roundtrip_amended (m : Webmention) (h : WFW m)
    (hmt : WebmentionType.from_raw (some m.mention_type) = m.mention_type) :
    Webmention.build (parse_metadata (format_webmention_markdown m)) .IN =
      .ok { m with direction := .IN, content := none,
                   mention_type_raw := some m.mention_type } := by
  rw [parse_metadata_format m h, build_metaDict m h .IN hmt]

/-- The sample outgoing mention is well-formed. -/
theorem sampleOut_wfw : WFW sampleOut :=
  ⟨by decide, by decide,
    fun v hv => (Option.some.inj hv) ▸ (by decide : WFVal (s2c "A Title")),
    fun v hv => Option.noConfusion hv,
    fun v hv => Option.noConfusion hv,
    fun v hv => Option.noConfusion hv,
    fun v hv => Option.noConfusion hv,
    fun d hd => (Option.some.inj hd) ▸ (by decide : WFDT dtPub),
    by decide, by decide,
    fun v hv => (Option.some.inj hv) ▸ (by decide : WFVal (s2c "in-reply-to")),
    fun d hd => Option.noConfusion hd,
    fun d hd => Option.noConfusion hd,
    by decide⟩

/-- C6, witness for the amended theorem at the sample mention. -/
theorem c6_roundtrip_amended_witness :
    Webmention.build (parse_metadata (format_webmention_markdown sampleOut))
        .IN =
      .ok { sampleOut with direction := .IN, content := none,
                           mention_type_raw := some sampleOut.mention_type } :=
  c6_roundtrip_amended sampleOut sampleOut_wfw (by decide)

/-- Storing into an empty file system stamps both timestamps with the clock
and writes exactly one file at the mention's path. -/
theorem store_webmention_nil (hash : Str → Str) (now : PyDateTime)
    (m : Webmention) :
    store_webmention hash now .ok [] m =
      .ok ([(store_webmention_path hash m,
             format_webmention_markdown
               { m with created_at := some now, updated_at := some now })],
           store_webmention_path hash m) := by
  rw [store_webmention]
  have hget : fsGet [] (store_webmention_path hash m) = none := rfl
  rw [hget]
  simp only [atomic_write]
  have h1 : fsSet [] (withSuffixTmp (store_webmention_path hash m))
      (format_webmention_markdown
        { m with created_at := some now, updated_at := some now }) =
      [(withSuffixTmp (store_webmention_path hash m),
        format_webmention_markdown
          { m with created_at := some now, updated_at := some now })] := by
    simp [fsSet, fsDel]
  rw [h1]
  have h2 : fsDel [(withSuffixTmp (store_webmention_path hash m),
      format_webmention_markdown
        { m with created_at := some now, updated_at := some now })]
      (withSuffixTmp (store_webmention_path hash m)) = [] := by
    simp [fsDel, List.filter]
  rw [h2]
  have h3 : fsSet [] (store_webmention_path hash m)
      (format_webmention_markdown
        { m with created_at := some now, updated_at := some now }) =
      [(store_webmention_path hash m,
        format_webmention_markdown
          { m with created_at := some now, updated_at := some now })] := by
    simp [fsSet, fsDel]
  rw [h3]

/-- Stamping both timestamps preserves well-formedness when the clock value
is well-formed. -/
theorem WFW_stamp (m : Webmention) (h : WFW m) (n : PyDateTime)
    (hn : WFDT n) :
    WFW { m with created_at := some n, updated_at := some n } :=
  ⟨h.source, h.target, h.title, h.excerpt, h.author_name, h.author_url,
    h.author_photo, h.published, h.status, h.mention_type,
    h.mention_type_raw,
    fun d hd => (Option.some.inj hd) ▸ hn,
    fun d hd => (Option.some.inj hd) ▸ hn,
    h.body⟩

/-- Rebuilding from recovered metadata overlaid with the soft-delete
overrides of `delete_webmention`. -/
theorem build_delete_metadata (m2 : Webmention) (h : WFW m2)
    (hmt : WebmentionType.from_raw (some m2.mention_type) = m2.mention_type)
    (source target : Str) (hsrc : source ≠ []) (htgt : target ≠ [])
    (now : PyDateTime) :
    Webmention.build
        (metaDict m2 ++
          [(s2c "type",
            (dGet (metaDict m2) (s2c "type")).getD (MVal.s (s2c "webmention"))),
           (s2c "source", MVal.s source),
           (s2c "target", MVal.s target),
           (s2c "updated_at", MVal.d now),
           (s2c "status", MVal.s (s2c "deleted"))]) .IN =
      .ok { m2 with source := source, target := target, direction := .IN,
                    content := none, status := s2c "deleted",
                    mention_type_raw := some m2.mention_type,
                    updated_at := some now } := by
  have hsrcE : source.isEmpty = false := isEmpty_false_of_ne _ hsrc
  have htgtE : target.isEmpty = false := isEmpty_false_of_ne _ htgt
  have hmtE : m2.mention_type.isEmpty = false :=
    isEmpty_false_of_ne _ h.mention_type.1
  have hDsrc : dGet
      (metaDict m2 ++
        [(s2c "type",
          (dGet (metaDict m2) (s2c "type")).getD (MVal.s (s2c "webmention"))),
         (s2c "source", MVal.s source),
         (s2c "target", MVal.s target),
         (s2c "updated_at", MVal.d now),
         (s2c "status", MVal.s (s2c "deleted"))]) (s2c "source") =
      some (MVal.s source) := by
    rw [dGet_append]
    rfl
  have hDtgt : dGet
      (metaDict m2 ++
        [(s2c "type",
          (dGet (metaDict m2) (s2c "type")).getD (MVal.s (s2c "webmention"))),
         (s2c "source", MVal.s source),
         (s2c "target", MVal.s target),
         (s2c "updated_at", MVal.d now),
         (s2c "status", MVal.s (s2c "deleted"))]) (s2c "target") =
      some (MVal.s target) := by
    rw [dGet_append]
    rfl
  have hDua : dGet
      (metaDict m2 ++
        [(s2c "type",
          (dGet (metaDict m2) (s2c "type")).getD (MVal.s (s2c "webmention"))),
         (s2c "source", MVal.s source),
         (s2c "target", MVal.s target),
         (s2c "updated_at", MVal.d now),
         (s2c "status", MVal.s (s2c "deleted"))]) (s2c "updated_at") =
      some (MVal.d now) := by
    rw [dGet_append]
    rfl
  have hDst : dGet
      (metaDict m2 ++
        [(s2c "type",
          (dGet (metaDict m2) (s2c "type")).getD (MVal.s (s2c "webmention"))),
         (s2c "source", MVal.s source),
         (s2c "target", MVal.s target),
         (s2c "updated_at", MVal.d now),
         (s2c "status", MVal.s (s2c "deleted"))]) (s2c "status") =
      some (MVal.s (s2c "deleted")) := by
    rw [dGet_append]
    rfl
  have hDmt : dGet
      (metaDict m2 ++
        [(s2c "type",
          (dGet (metaDict m2) (s2c "type")).getD (MVal.s (s2c "webmention"))),
         (s2c "source", MVal.s source),
         (s2c "target", MVal.s target),
         (s2c "updated_at", MVal.d now),
         (s2c "status", MVal.s (s2c "deleted"))]) (s2c "mention_type") =
      some (MVal.s m2.mention_type) := by
    rw [dGet_append]
    exact dGet_metaDict_mention_type m2
  have hDpub : dGet
      (metaDict m2 ++
        [(s2c "type",
          (dGet (metaDict m2) (s2c "type")).getD (MVal.s (s2c "webmention"))),
         (s2c "source", MVal.s source),
         (s2c "target", MVal.s target),
         (s2c "updated_at", MVal.d now),
         (s2c "status", MVal.s (s2c "deleted"))]) (s2c "published") =
      (m2.published.map (fun d => d.iso)).map MVal.s := by
    rw [dGet_append]
    exact dGet_metaDict_published m2
  have hDca : dGet
      (metaDict m2 ++
        [(s2c "type",
          (dGet (metaDict m2) (s2c "type")).getD (MVal.s (s2c "webmention"))),
         (s2c "source", MVal.s source),
         (s2c "target", MVal.s target),
         (s2c "updated_at", MVal.d now),
         (s2c "status", MVal.s (s2c "deleted"))]) (s2c "created_at") =
      (m2.created_at.map (fun d => d.iso)).map MVal.s := by
    rw [dGet_append]
    exact dGet_metaDict_created_at m2
  have hDttl : dGet
      (metaDict m2 ++
        [(s2c "type",
          (dGet (metaDict m2) (s2c "type")).getD (MVal.s (s2c "webmention"))),
         (s2c "source", MVal.s source),
         (s2c "target", MVal.s target),
         (s2c "updated_at", MVal.d now),
         (s2c "status", MVal.s (s2c "deleted"))]) (s2c "title") =
      m2.title.map MVal.s := by
    rw [dGet_append]
    exact dGet_metaDict_title m2
  have hDexc : dGet
      (metaDict m2 ++
        [(s2c "type",
          (dGet (metaDict m2) (s2c "type")).getD (MVal.s (s2c "webmention"))),
         (s2c "source", MVal.s source),
         (s2c "target", MVal.s target),
         (s2c "updated_at", MVal.d now),
         (s2c "status", MVal.s (s2c "deleted"))]) (s2c "excerpt") =
      m2.excerpt.map MVal.s := by
    rw [dGet_append]
    exact dGet_metaDict_excerpt m2
  have hDcon : dGet
      (metaDict m2 ++
        [(s2c "type",
          (dGet (metaDict m2) (s2c "type")).getD (MVal.s (s2c "webmention"))),
         (s2c "source", MVal.s source),
         (s2c "target", MVal.s target),
         (s2c "updated_at", MVal.d now),
         (s2c "status", MVal.s (s2c "deleted"))]) (s2c "content") = none := by
    rw [dGet_append]
    exact dGet_metaDict_content m2
  have hDan : dGet
      (metaDict m2 ++
        [(s2c "type",
          (dGet (metaDict m2) (s2c "type")).getD (MVal.s (s2c "webmention"))),
         (s2c "source", MVal.s source),
         (s2c "target", MVal.s target),
         (s2c "updated_at", MVal.d now),
         (s2c "status", MVal.s (s2c "deleted"))]) (s2c "author_name") =
      m2.author_name.map MVal.s := by
    rw [dGet_append]
    exact dGet_metaDict_author_name m2
  have hDau : dGet
      (metaDict m2 ++
        [(s2c "type",
          (dGet (metaDict m2) (s2c "type")).getD (MVal.s (s2c "webmention"))),
         (s2c "source", MVal.s source),
         (s2c "target", MVal.s target),
         (s2c "updated_at", MVal.d now),
         (s2c "status", MVal.s (s2c "deleted"))]) (s2c "author_url") =
      m2.author_url.map MVal.s := by
    rw [dGet_append]
    exact dGet_metaDict_author_url m2
  have hDap : dGet
      (metaDict m2 ++
        [(s2c "type",
          (dGet (metaDict m2) (s2c "type")).getD (MVal.s (s2c "webmention"))),
         (s2c "source", MVal.s source),
         (s2c "target", MVal.s target),
         (s2c "updated_at", MVal.d now),
         (s2c "status", MVal.s (s2c "deleted"))]) (s2c "author_photo") =
      m2.author_photo.map MVal.s := by
    rw [dGet_append]
    exact dGet_metaDict_author_photo m2
  rw [Webmention.build, hDsrc, hDtgt, hDmt, hDpub, hDca, hDua]
  simp only [pyTruthy, hsrcE, htgtE, Bool.not_false, Bool.not_true,
    Bool.false_eq_true, if_false, hmtE, hmt,
    parseDt_map_iso m2.published h.published,
    parseDt_map_iso m2.created_at h.created_at]
  rw [show parseDt (some (MVal.d now)) = .ok (some now) from rfl]
  rw [hDttl, hDexc, hDcon, hDan, hDau, hDap, hDst]
  simp only [getStrD, getStrOpt_map,
    isEmpty_false_of_ne (s2c "deleted") (by decide), Bool.false_eq_true,
    if_false]
  rfl

/-- C7, amended: in soft-delete mode, deleting a freshly stored record flips
its status to `deleted` and stamps `updated_at` with the deletion clock,
preserving source, target, title, excerpt, author fields, published,
mention_type and created_at — but it does not preserve everything: the
rebuilt record's `direction` is reset to `build`'s default INCOMING,
`mention_type_raw` is re-normalized to the mention type's value, and the
content body is replaced by the literal text `None`. -/
theorem c7_soft_delete_amended (m : Webmention) (h : WFW m) (hash : Str → Str)
    (n1 n2 : PyDateTime) (hn1 : WFDT n1)
    (hmt : WebmentionType.from_raw (some m.mention_type) = m.mention_type) :
    store_webmention hash n1 .ok [] m =
      .ok ([(store_webmention_path hash m,
             format_webmention_markdown
               { m with created_at := some n1, updated_at := some n1 })],
           store_webmention_path hash m) ∧
    (delete_webmention hash false n2 .ok
        [(store_webmention_path hash m,
          format_webmention_markdown
            { m with created_at := some n1, updated_at := some n1 })]
        m.source m.target m.direction).map
      (fun r => r.2.map (fun p => (p, fsGet r.1 p))) =
      .ok (some (store_webmention_path hash m,
        some (format_webmention_markdown
          { m with direction := .IN, content := none,
                   status := s2c "deleted",
                   mention_type_raw := some m.mention_type,
                   created_at := some n1, updated_at := some n2 }))) := by
  refine ⟨store_webmention_nil hash n1 m, ?del⟩
  have hW2 : WFW { m with created_at := some n1, updated_at := some n1 } :=
    WFW_stamp m h n1 hn1
  rw [delete_webmention.eq_def]
  dsimp only
  have hpath : (match m.direction with
      | WebmentionDirection.IN =>
        [s2c "mentions", WebmentionDirection.IN.value, extract_post_slug m.target]
      | WebmentionDirection.OUT =>
        [s2c "mentions", WebmentionDirection.OUT.value, extract_post_slug m.source]) ++
      [generate_mention_filename hash m.source (s2c "webmention")] =
      store_webmention_path hash m := by
    rw [store_path_components]
    cases hd : m.direction <;> simp [owningSlug, hd]
  rw [hpath]
  have hget : fsGet
      [(store_webmention_path hash m,
        format_webmention_markdown
          { m with created_at := some n1, updated_at := some n1 })]
      (store_webmention_path hash m) =
      some (format_webmention_markdown
        { m with created_at := some n1, updated_at := some n1 }) := by
    simp [fsGet, List.find?]
  rw [hget]
  simp only [Bool.false_eq_true, if_false]
  rw [parse_metadata_format _ hW2,
    build_delete_metadata _ hW2 hmt m.source m.target h.source.1 h.target.1 n2]
  simp only [atomic_write, Except.map]
  simp [fsGet_fsSet_self]

/-- C7, counterexample: soft-deleting the freshly stored sample outgoing
mention rewrites its `direction` to `incoming` and its `mention_type_raw`
from `in-reply-to` to `reply`, so not every other stored field is preserved
unchanged. -/
theorem c7_soft_delete_direction_rewritten :
    (store_webmention hashStub dtA .ok [] sampleOut).toOption.map
        (fun r => dGet (parse_metadata ((fsGet r.1 r.2).getD []))
          (s2c "direction")) =
      some (some (MVal.s (s2c "outgoing"))) ∧
    ((store_webmention hashStub dtA .ok [] sampleOut).toOption.bind
        (fun r =>
          (delete_webmention hashStub false dtB .ok r.1 sampleOut.source
              sampleOut.target sampleOut.direction).toOption.map
            (fun r2 => r2.2.map (fun p =>
              (dGet (parse_metadata ((fsGet r2.1 p).getD [])) (s2c "direction"),
               dGet (parse_metadata ((fsGet r2.1 p).getD []))
                 (s2c "mention_type_raw")))))) =
      some (some (some (MVal.s (s2c "incoming")),
        some (MVal.s (s2c "reply")))) := by
  constructor
  · decide
  · decide

/-- C7, witness for the amended theorem at the sample mention. -/
theorem c7_soft_delete_amended_witness :
    store_webmention hashStub dtA .ok [] sampleOut =
      .ok ([(store_webmention_path hashStub sampleOut,
             format_webmention_markdown
               { sampleOut with created_at := some dtA, updated_at := some dtA })],
           store_webmention_path hashStub sampleOut) ∧
    (delete_webmention hashStub false dtB .ok
        [(store_webmention_path hashStub sampleOut,
          format_webmention_markdown
            { sampleOut with created_at := some dtA, updated_at := some dtA })]
        sampleOut.source sampleOut.target sampleOut.direction).map
      (fun r => r.2.map (fun p => (p, fsGet r.1 p))) =
      .ok (some (store_webmention_path hashStub sampleOut,
        some (format_webmention_markdown
          { sampleOut with direction := .IN, content := none,
                           status := s2c "deleted",
                           mention_type_raw := some sampleOut.mention_type,
                           created_at := some dtA, updated_at := some dtB }))) :=
  c7_soft_delete_amended sampleOut sampleOut_wfw hashStub dtA dtB
    (by decide) (by decide)

/-- The lexicographic Boolean comparison is total. -/
theorem charListLe_total (x y : Str) :
    charListLe x y = true ∨ charListLe y x = true := by
  induction x generalizing y with
  | nil => exact Or.inl rfl
  | cons a as ih =>
    cases y with
    | nil => exact Or.inr rfl
    | cons b bs =>
      by_cases hab : a = b
      · subst hab
        rcases ih bs with h | h
        · exact Or.inl (by simp [charListLe, h])
        · exact Or.inr (by simp [charListLe, h])
      · rcases lt_or_gt_of_ne hab with hlt | hgt
        · exact Or.inl (by simp [charListLe, hab, hlt])
        · exact Or.inr (by simp [charListLe, Ne.symm hab, hgt])

/-- The head of a stable descending insertion. -/
theorem insertDescBy_head (key : Webmention → Str) (x : Webmention)
    (l : List Webmention) :
    (insertDescBy key x l).head? = some x ∨
    (insertDescBy key x l).head? = l.head? := by
  cases l with
  | nil => exact Or.inl rfl
  | cons y ys =>
    rw [insertDescBy]
    by_cases hle : charListLe (key x) (key y) = true
    · rw [if_pos hle]
      exact Or.inr rfl
    · rw [if_neg hle]
      exact Or.inl rfl

/-- Stable descending insertion preserves descending sortedness. -/
theorem chain'_insertDescBy (key : Webmention → Str) (x : Webmention)
    (l : List Webmention)
    (hl : List.Chain' (fun a b => charListLe (key b) (key a) = true) l) :
    List.Chain' (fun a b => charListLe (key b) (key a) = true)
      (insertDescBy key x l) := by
  induction l with
  | nil => simp [insertDescBy]
  | cons y ys ih =>
    rw [insertDescBy]
    by_cases hle : charListLe (key x) (key y) = true
    · rw [if_pos hle]
      refine List.chain'_cons'.mpr ⟨?hd, ih (List.Chain'.tail hl)⟩
      intro h hh
      rcases insertDescBy_head key x ys with hh1 | hh1
      · rw [hh1] at hh
        exact (Option.some.inj hh) ▸ hle
      · rw [hh1] at hh
        exact (List.chain'_cons'.mp hl).1 h hh
    · rw [if_neg hle]
      refine List.chain'_cons.mpr ⟨?r, hl⟩
      rcases charListLe_total (key x) (key y) with h | h
      · exact absurd h hle
      · exact h

/-- `sorted(..., reverse=True)` produces a descending chain. -/
theorem chain'_pySortedDescBy (key : Webmention → Str) (l : List Webmention) :
    List.Chain' (fun a b => charListLe (key b) (key a) = true)
      (pySortedDescBy key l) := by
  have haux : ∀ (l : List Webmention) (acc : List Webmention),
      List.Chain' (fun a b => charListLe (key b) (key a) = true) acc →
      List.Chain' (fun a b => charListLe (key b) (key a) = true)
        (l.foldl (fun acc x => insertDescBy key x acc) acc) := by
    intro l
    induction l with
    | nil => exact fun acc h => h
    | cons x xs ih =>
      intro acc hacc
      exact ih (insertDescBy key x acc) (chain'_insertDescBy key x acc hacc)
  exact haux l [] List.chain'_nil

/-- Membership through stable descending insertion. -/
theorem mem_insertDescBy (key : Webmention → Str) (x a : Webmention)
    (l : List Webmention) :
    a ∈ insertDescBy key x l ↔ a = x ∨ a ∈ l := by
  induction l with
  | nil => simp [insertDescBy]
  | cons y ys ih =>
    rw [insertDescBy]
    by_cases hle : charListLe (key x) (key y) = true
    · rw [if_pos hle]
      simp only [List.mem_cons, ih]
      tauto
    · rw [if_neg hle]
      simp only [List.mem_cons]

/-- Sorting does not change membership. -/
theorem mem_pySortedDescBy (key : Webmention → Str) (a : Webmention)
    (l : List Webmention) : a ∈ pySortedDescBy key l ↔ a ∈ l := by
  have haux : ∀ (l acc : List Webmention),
      (a ∈ l.foldl (fun acc x => insertDescBy key x acc) acc ↔
        a ∈ acc ∨ a ∈ l) := by
    intro l
    induction l with
    | nil => simp
    | cons x xs ih =>
      intro acc
      rw [List.foldl_cons, ih (insertDescBy key x acc), mem_insertDescBy]
      simp only [List.mem_cons]
      tauto
  rw [pySortedDescBy, haux l []]
  simp

/-- The status field of any successfully built record. -/
theorem build_ok_status (d : PyDict) (dir : WebmentionDirection)
    (w : Webmention) (hb : Webmention.build d dir = .ok w) :
    w.status =
      match dGet d (s2c "status") with
      | some (MVal.s v) => if v.isEmpty then pendingStatusValue else v
      | _ => pendingStatusValue := by
  rw [Webmention.build] at hb
  by_cases h1 : (!pyTruthy (dGet d (s2c "source"))) = true
  · rw [if_pos h1] at hb
    exact Except.noConfusion hb
  · rw [if_neg h1] at hb
    by_cases h2 : (!pyTruthy (dGet d (s2c "target"))) = true
    · rw [if_pos h2] at hb
      exact Except.noConfusion hb
    · rw [if_neg h2] at hb
      cases hp : parseDt (dGet d (s2c "published")) with
      | error e =>
        rw [hp] at hb
        exact Except.noConfusion hb
      | ok pub =>
        rw [hp] at hb
        cases hc : parseDt (dGet d (s2c "created_at")) with
        | error e =>
          rw [hc] at hb
          exact Except.noConfusion hb
        | ok ca =>
          rw [hc] at hb
          cases hu : parseDt (dGet d (s2c "updated_at")) with
          | error e =>
            rw [hu] at hb
            exact Except.noConfusion hb
          | ok ua =>
            rw [hu] at hb
            rw [← Except.ok.inj hb]

/-- C4: retrieval returns only records whose stored status equals the
CONFIRMED value (in particular never a DELETED one), sorted descending by
`published or created_at`; and a stored record that fails the status guard or
whose metadata `Webmention.build` rejects is skipped without affecting the
rest of the retrieval. -/
theorem c4_retrieve_confirmed_sorted :
    (∀ (fs : FileSys) (resource : Str) (direction : WebmentionDirection),
      (∀ w ∈ retrieve_webmentions fs resource direction,
        w.status = confirmedStatusValue ∧ w.status ≠ deletedStatusValue) ∧
      SortedDescByKey (retrieve_webmentions fs resource direction)) ∧
    (∀ (l1 l2 : FileSys) (p : FsPath) (c : Str) (resource : Str)
        (direction : WebmentionDirection),
      (dGet (parse_metadata c) (s2c "status") ≠
          some (MVal.s confirmedStatusValue) ∨
        ∀ w, Webmention.build (parse_metadata c) .IN ≠ .ok w) →
      retrieve_webmentions (l1 ++ (p, c) :: l2) resource direction =
        retrieve_webmentions (l1 ++ l2) resource direction) := by
  constructor
  · intro fs resource direction
    constructor
    · intro w hw
      simp only [retrieve_webmentions] at hw
      rw [mem_pySortedDescBy] at hw
      obtain ⟨e, he, hsel⟩ := List.mem_filterMap.mp hw
      by_cases hg : (dGet (parse_metadata e.2) (s2c "status") !=
          some (MVal.s confirmedStatusValue)) = true
      · rw [if_pos hg] at hsel
        exact Option.noConfusion hsel
      · rw [if_neg hg] at hsel
        simp only [bne_iff_ne, ne_eq, not_not] at hg
        cases hbw : Webmention.build (parse_metadata e.2) .IN with
        | error er =>
          rw [hbw] at hsel
          exact Option.noConfusion hsel
        | ok w2 =>
          rw [hbw] at hsel
          have hw2 : w2 = w := Option.some.inj hsel
          subst hw2
          have hst := build_ok_status _ _ _ hbw
          rw [hg] at hst
          have hcf : w2.status = confirmedStatusValue := hst.trans rfl
      
          exact ⟨hcf, by rw [hcf]; decide⟩
    · simp only [retrieve_webmentions]
      exact chain'_pySortedDescBy _ _
  · intro l1 l2 p c resource direction hsel
    simp only [retrieve_webmentions]
    rw [List.filter_append, List.filter_append, List.filter_cons]
    by_cases hgm : globMatch
        [s2c "mentions", direction.value, extract_post_slug resource] p = true
    · rw [if_pos hgm, List.filterMap_append, List.filterMap_append,
        List.filterMap_cons]
      have hselNone : (if (dGet (parse_metadata c) (s2c "status") !=
            some (MVal.s confirmedStatusValue)) = true then none
          else match Webmention.build (parse_metadata c) .IN with
            | .ok w => some w
            | .error _ => none) = (none : Option Webmention) := by
        rcases hsel with hne | hbuild
        · rw [if_pos (bne_iff_ne.mpr hne)]
        · by_cases hg : (dGet (parse_metadata c) (s2c "status") !=
              some (MVal.s confirmedStatusValue)) = true
          · rw [if_pos hg]
          · rw [if_neg hg]
            cases hbw : Webmention.build (parse_metadata c) .IN with
            | error er => rfl
            | ok w => exact absurd hbw (hbuild w)
      rw [hselNone]
    · rw [if_neg hgm]

/-- C4, witness: with one confirmed stored record, retrieval returns a sorted
result, and inserting a malformed record (confirmed status but no
source/target metadata) leaves the retrieval unchanged. -/
theorem c4_retrieve_confirmed_sorted_witness :
    SortedDescByKey (retrieve_webmentions
      [(store_webmention_path hashStub sampleIn,
        format_webmention_markdown sampleIn)] sampleTarget .IN) ∧
    retrieve_webmentions
        ([] ++ (store_webmention_path hashStub sampleIn ++ [s2c "x"],
                badContent) ::
          [(store_webmention_path hashStub sampleIn,
            format_webmention_markdown sampleIn)]) sampleTarget .IN =
      retrieve_webmentions
        ([] ++ [(store_webmention_path hashStub sampleIn,
                 format_webmention_markdown sampleIn)]) sampleTarget .IN :=
  ⟨(c4_retrieve_confirmed_sorted.1
      [(store_webmention_path hashStub sampleIn,
        format_webmention_markdown sampleIn)] sampleTarget .IN).2,
    c4_retrieve_confirmed_sorted.2 []
      [(store_webmention_path hashStub sampleIn,
        format_webmention_markdown sampleIn)]
      (store_webmention_path hashStub sampleIn ++ [s2c "x"]) badContent
      sampleTarget .IN
      (Or.inr (fun w hw => Except.noConfusion
        ((by decide : Webmention.build (parse_metadata badContent) .IN =
            .error (s2c "source is required")).symm.trans hw)))⟩

/-- The metadata fold is the flattened per-line contribution list. -/
theorem pmFold_eq_flatten (ls : List Str) (d : PyDict) :
    pmFold ls d = d ++ (ls.map entryOf).flatten := by
  induction ls generalizing d with
  | nil => simp [pmFold]
  | cons l rest ih =>
    have hstep : pmFold (l :: rest) d = pmFold rest (d ++ entryOf l) := by
      rw [pmFold, List.foldl_cons, entryOf]
      cases hm : matchMetaLine l with
      | some kv => simp [pmFold, hm]
      | none => simp [pmFold, hm]
    rw [hstep, ih, List.map_cons, List.flatten_cons, List.append_assoc]

/-- Lines produced by the splitter contain no newline. -/
theorem splitLines_no_nl (s : Str) : ∀ l ∈ splitLines s, '\n' ∉ l := by
  induction s with
  | nil =>
    intro l hl
    simp only [splitLines, List.mem_singleton] at hl
    simp [hl]
  | cons c cs ih =>
    intro l hl
    rw [splitLines] at hl
    by_cases hc : c = '\n'
    · rw [if_pos hc] at hl
      rcases List.mem_cons.mp hl with h1 | h1
      · simp [h1]
      · exact ih l h1
    · rw [if_neg hc] at hl
      cases hsp : splitLines cs with
      | nil =>
        rw [hsp] at hl
        rcases List.mem_singleton.mp hl with rfl
        intro hmem
        rcases List.mem_singleton.mp hmem with rfl
        exact hc rfl
      | cons h t =>
        rw [hsp] at hl
        rcases List.mem_cons.mp hl with h1 | h1
        · subst h1
          intro hmem
          rcases List.mem_cons.mp hmem with h2 | h2
          · exact hc h2.symm
          · exact ih h (hsp ▸ List.mem_cons_self h t) h2
        · exact ih l (hsp ▸ List.mem_cons_of_mem h h1)


theorem splitFirst_subset (c : Char) (l : Str) :
    ∀ (a b : Str), splitFirst c l = some (a, b) →
    (∀ x ∈ a, x ∈ l) ∧ (∀ x ∈ b, x ∈ l) := by
  induction l with
  | nil => intro a b h; exact Option.noConfusion h
  | cons y ys ih =>
    intro a b h
    rw [splitFirst] at h
    by_cases hy : y = c
    · rw [if_pos hy] at h
      have hinj := Option.some.inj h
      rw [Prod.mk.injEq] at hinj
      obtain ⟨ha, hb⟩ := hinj
      subst ha
      subst hb
      exact ⟨fun x hx => absurd hx (List.not_mem_nil x),
        fun x hx => List.mem_cons_of_mem y hx⟩
    · rw [if_neg hy] at h
      cases hsp : splitFirst c ys with
      | none => rw [hsp] at h; exact Option.noConfusion h
      | some p =>
        obtain ⟨p1, p2⟩ := p
        rw [hsp] at h
        have hinj := Option.some.inj h
        rw [Prod.mk.injEq] at hinj
        obtain ⟨ha, hb⟩ := hinj
        subst ha
        subst hb
        obtain ⟨ih1, ih2⟩ := ih p1 p2 hsp
        refine ⟨?pa, ?pb⟩
        · intro x hx
          rcases List.mem_cons.mp hx with h1 | h1
          · exact h1 ▸ List.mem_cons_self y ys
          · exact List.mem_cons_of_mem y (ih1 x h1)
        · exact fun x hx => List.mem_cons_of_mem y (ih2 x hx)

theorem pyStrip_subset (s : Str) : ∀ x ∈ pyStrip s, x ∈ s := by
  intro x hx
  rw [pyStrip] at hx
  rw [List.mem_reverse] at hx
  have h1 := (List.dropWhile_sublist isPySpace).subset hx
  rw [List.mem_reverse] at h1
  exact (List.dropWhile_sublist isPySpace).subset h1

theorem matchMetaLine_val_subset (l : Str) (kv : Str × Str)
    (h : matchMetaLine l = some kv) : ∀ x ∈ kv.2, x ∈ l := by
  rw [matchMetaLine] at h
  simp only [] at h
  split at h
  · split at h
    · exact Option.noConfusion h
    · next key after hsp =>
      split at h
      · exact Option.noConfusion h
      · split at h
        · next valpart =>
          split at h
          · exact Option.noConfusion h
          · next r0 restRev hdw =>
            split at h
            · exact Option.noConfusion h
            · next hval =>
              have hkv2 : kv.2 = pyStrip restRev.reverse := by
                rw [← Option.some.inj h]
              intro x hx
              rw [hkv2] at hx
              have hx1 := pyStrip_subset _ x hx
              rw [List.mem_reverse] at hx1
              have hx2 : x ∈ valpart.reverse := by
                have hmem : x ∈ r0 :: restRev := List.mem_cons_of_mem r0 hx1
                rw [← hdw] at hmem
                exact (List.dropWhile_sublist _).subset hmem
              rw [List.mem_reverse] at hx2
              have hx4 : x ∈ l.drop 9 :=
                (splitFirst_subset ':' (l.drop 9) key (' ' :: valpart) hsp).2 x
                  (List.mem_cons_of_mem ' ' hx2)
              exact List.drop_subset 9 l hx4
        · exact Option.noConfusion h
  · exact Option.noConfusion h

/-- Every string value recovered by the metadata scanner is newline-free. -/
theorem parse_metadata_val_no_nl (content : Str) (k v : Str)
    (h : (k, MVal.s v) ∈ parse_metadata content) : '\n' ∉ v := by
  rw [parse_metadata, pmFold_eq_flatten, List.nil_append] at h
  obtain ⟨E, hE, hmem⟩ := List.mem_flatten.mp h
  obtain ⟨l, hl, hEl⟩ := List.mem_map.mp hE
  rw [← hEl, entryOf] at hmem
  cases hm : matchMetaLine l with
  | none => rw [hm] at hmem; exact absurd hmem (List.not_mem_nil _)
  | some kv =>
    rw [hm] at hmem
    rcases List.mem_singleton.mp hmem with heq
    have hv : v = kv.2 := by
      have := congrArg Prod.snd heq
      simp only at this
      exact MVal.s.inj this
    intro hnl
    have hx := matchMetaLine_val_subset l kv hm '\n' (hv ▸ hnl)
    exact splitLines_no_nl content l hl hx

/-- Removing a file only discards entries. -/
theorem mem_fsDel (fs : FileSys) (p : FsPath) (e : FsPath × Str)
    (h : e ∈ fsDel fs p) : e ∈ fs :=
  (List.mem_filter.mp h).1

/-- Every entry of `fsSet fs p c` is an old entry or the new pair. -/
theorem mem_fsSet (fs : FileSys) (p : FsPath) (c : Str) (e : FsPath × Str)
    (h : e ∈ fsSet fs p c) : e ∈ fs ∨ e = (p, c) := by
  rw [fsSet] at h
  rcases List.mem_append.mp h with h1 | h1
  · exact Or.inl (mem_fsDel fs p e h1)
  · exact Or.inr (List.mem_singleton.mp h1)

/-- A successful lookup exhibits a store entry. -/
theorem fsGet_mem (fs : FileSys) (p : FsPath) (c : Str)
    (h : fsGet fs p = some c) : (p, c) ∈ fs := by
  rw [fsGet] at h
  cases hf : fs.find? (fun e => e.1 == p) with
  | none => rw [hf] at h; exact Option.noConfusion h
  | some e =>
    obtain ⟨e1, e2⟩ := e
    rw [hf] at h
    have he := List.mem_of_find?_eq_some hf
    have hp : e1 = p := by
      have hb := List.find?_some hf
      simpa using hb
    have hc : e2 = c := by simpa using h
    rw [← hp, ← hc]
    exact he

/-- No line of the default `None` body is shaped like a metadata comment. -/
theorem none_body_unmatchable :
    ∀ l ∈ splitLines (s2c "None" ++ ['\n']), matchMetaLine l = none := by
  decide

/-- The records `mark_sent` hands to the serializer are well-formed whenever
the two URLs and the two timestamps are. -/
theorem mark_sent_record_wfw (source target : Str) (ca now : PyDateTime)
    (hs : WFVal source) (ht : WFVal target) (hca : WFDT ca) (hnow : WFDT now) :
    WFW { mkWebmention source target .OUT with
            created_at := some ca, updated_at := some now } := by
  refine ⟨hs, ht, ?_, ?_, ?_, ?_, ?_, ?_, ?_, ?_, ?_, ?_, ?_, ?_⟩
  · exact fun v hv => Option.noConfusion hv
  · exact fun v hv => Option.noConfusion hv
  · exact fun v hv => Option.noConfusion hv
  · exact fun v hv => Option.noConfusion hv
  · exact fun v hv => Option.noConfusion hv
  · exact fun d hd => Option.noConfusion hd
  · exact (by decide : WFVal pendingStatusValue)
  · exact (by decide : WFVal (s2c "unknown"))
  · exact fun v hv => Option.noConfusion hv
  · exact fun d hd => (Option.some.inj hd) ▸ hca
  · exact fun d hd => (Option.some.inj hd) ▸ hnow
  · exact none_body_unmatchable

/-- Every entry a successful `_atomic_write` leaves behind is an old entry
or carries the written content. -/
theorem atomic_write_ok_mem (fs : FileSys) (fp : FsPath) (c : Str)
    (fault : WriteFault) (fsw : FileSys)
    (hok : atomic_write fs fp c fault = .ok fsw)
    (e : FsPath × Str) (he : e ∈ fsw) : e ∈ fs ∨ e.2 = c := by
  cases fault with
  | ok =>
    simp only [atomic_write] at hok
    injection hok with h1
    subst h1
    rcases mem_fsSet _ _ _ _ he with h2 | h2
    · rcases mem_fsSet _ _ _ _ (mem_fsDel _ _ _ h2) with h3 | h3
      · exact Or.inl h3
      · exact Or.inr (congrArg Prod.snd h3)
    · exact Or.inr (congrArg Prod.snd h2)
  | failWrite pc => simp only [atomic_write] at hok; exact Except.noConfusion hok
  | failReplace => simp only [atomic_write] at hok; exact Except.noConfusion hok

/-- Shape of a successful `store_webmention`: every entry of the resulting
file system is an old entry or carries the serialization of the stamped
mention, whose `created_at` is the store clock or the `created_at` rebuilt
from the pre-existing file. -/
theorem store_webmention_ok_mem (hash : Str → Str) (now : PyDateTime)
    (fault : WriteFault) (fs : FileSys) (m : Webmention) (fs2 : FileSys)
    (p : FsPath) (hok : store_webmention hash now fault fs m = .ok (fs2, p))
    (e : FsPath × Str) (he : e ∈ fs2) :
    e ∈ fs ∨ ∃ ca, e.2 = format_webmention_markdown
        { m with created_at := some ca, updated_at := some now } ∧
      (ca = now ∨ ∃ c w, fsGet fs (store_webmention_path hash m) = some c ∧
        Webmention.build (parse_metadata c) .IN = .ok w ∧
        w.created_at = some ca) := by
  rw [store_webmention] at hok
  simp only [] at hok
  cases hget : fsGet fs (store_webmention_path hash m) with
  | none =>
    rw [hget] at hok
    dsimp only at hok
    cases hw : atomic_write fs (store_webmention_path hash m)
        (format_webmention_markdown
          { m with created_at := some now, updated_at := some now }) fault with
    | error err => rw [hw] at hok; exact Except.noConfusion hok
    | ok fsw =>
      rw [hw] at hok
      injection hok with h1
      injection h1 with ha hb
      subst ha
      rcases atomic_write_ok_mem _ _ _ _ _ hw e he with h2 | h2
      · exact Or.inl h2
      · exact Or.inr ⟨now, h2, Or.inl rfl⟩
  | some ec =>
    rw [hget] at hok
    dsimp only at hok
    cases hemp : (parse_metadata ec).isEmpty with
    | true =>
      rw [hemp] at hok
      simp only [if_true] at hok
      cases hw : atomic_write fs (store_webmention_path hash m)
          (format_webmention_markdown
            { m with created_at := some now, updated_at := some now }) fault with
      | error err => rw [hw] at hok; exact Except.noConfusion hok
      | ok fsw =>
        rw [hw] at hok
        injection hok with h1
        injection h1 with ha hb
        subst ha
        rcases atomic_write_ok_mem _ _ _ _ _ hw e he with h2 | h2
        · exact Or.inl h2
        · exact Or.inr ⟨now, h2, Or.inl rfl⟩
    | false =>
      rw [hemp] at hok
      simp only [Bool.false_eq_true, if_false] at hok
      cases hbuild : Webmention.build (parse_metadata ec) WebmentionDirection.IN with
      | error err => rw [hbuild] at hok; exact Except.noConfusion hok
      | ok parsed =>
        rw [hbuild] at hok
        dsimp only at hok
        cases hca : parsed.created_at with
        | none =>
          rw [hca] at hok
          dsimp only at hok
          cases hw : atomic_write fs (store_webmention_path hash m)
              (format_webmention_markdown
                { m with created_at := some now, updated_at := some now }) fault with
          | error err => rw [hw] at hok; exact Except.noConfusion hok
          | ok fsw =>
            rw [hw] at hok
            injection hok with h1
            injection h1 with ha hb
            subst ha
            rcases atomic_write_ok_mem _ _ _ _ _ hw e he with h2 | h2
            · exact Or.inl h2
            · exact Or.inr ⟨now, h2, Or.inl rfl⟩
        | some c =>
          rw [hca] at hok
          dsimp only at hok
          cases hw : atomic_write fs (store_webmention_path hash m)
              (format_webmention_markdown
                { m with created_at := some c, updated_at := some now }) fault with
          | error err => rw [hw] at hok; exact Except.noConfusion hok
          | ok fsw =>
            rw [hw] at hok
            injection hok with h1
            injection h1 with ha hb
            subst ha
            rcases atomic_write_ok_mem _ _ _ _ _ hw e he with h2 | h2
            · exact Or.inl h2
            · exact Or.inr ⟨c, h2, Or.inr ⟨ec, parsed, rfl, hbuild, hca⟩⟩

/-- A successful `mark_sent` preserves the pending-store invariant. -/
theorem mark_sent_inv (hash : Str → Str) (now : PyDateTime)
    (fault : WriteFault) (fs : FileSys) (source target : Str)
    (hinv : MarkSentInv fs) (hs : WFVal source) (ht : WFVal target)
    (hnow : WFDT now) (fs2 : FileSys) (p : FsPath)
    (hok : mark_sent hash now fault fs source target = .ok (fs2, p)) :
    MarkSentInv fs2 := by
  rw [mark_sent] at hok
  intro e he
  rcases store_webmention_ok_mem hash now fault fs _ fs2 p hok e he with
    hmem | ⟨ca, hfmt, hca⟩
  · exact hinv e hmem
  · have hwfdt_ca : WFDT ca := by
      rcases hca with hca | ⟨c, w, hget, hbuild, hcat⟩
      · exact hca ▸ hnow
      · obtain ⟨m', hm'wfw, hm'st, hm'mt, hm'fmt⟩ := hinv _ (fsGet_mem fs _ c hget)
        rw [show ((store_webmention_path hash
              { mkWebmention source target .OUT with updated_at := some now },
            c) : FsPath × Str).2 = c from rfl] at hm'fmt
        rw [hm'fmt, parse_metadata_format m' hm'wfw,
          build_metaDict m' hm'wfw .IN hm'mt] at hbuild
        have hw := Except.ok.inj hbuild
        rw [← hw] at hcat
        exact hm'wfw.created_at ca hcat
    have hfix : WebmentionType.from_raw (some (s2c "unknown")) = s2c "unknown" := by
      decide
    exact ⟨{ mkWebmention source target .OUT with
               created_at := some ca, updated_at := some now },
           mark_sent_record_wfw source target ca now hs ht hwfdt_ca hnow,
           rfl, hfix, hfmt⟩

/-- The pending-store invariant gives the parsed PENDING status of every
file. -/
theorem markSentInv_pending (fs : FileSys) (h : MarkSentInv fs) :
    PendingInv fs := by
  intro e he
  obtain ⟨m, hwfw, hst, _, hfmt⟩ := h e he
  rw [hfmt, parse_metadata_format m hwfw, dGet_metaDict_status, hst]

/-- `retrieve_webmentions` returns nothing from a store whose files all parse
with the PENDING status: the confirmed-status filter skips every file. -/
theorem retrieve_empty_of_pending (fs : FileSys) (h : PendingInv fs)
    (resource : Str) (direction : WebmentionDirection) :
    retrieve_webmentions fs resource direction = [] := by
  rw [retrieve_webmentions]
  have hfm : (fs.filter (fun e => globMatch
      [s2c "mentions", direction.value, extract_post_slug resource] e.1)).filterMap
      (fun e =>
        let metadata := parse_metadata e.2
        if dGet metadata (s2c "status") != some (MVal.s confirmedStatusValue) then
          none
        else
          match Webmention.build metadata .IN with
          | .ok w => some w
          | .error _ => none) = [] := by
    rw [List.filterMap_eq_nil]
    intro e he
    have hst := h e (List.mem_filter.mp he).1
    simp only [hst]
    rfl
  rw [hfm]
  rfl

/-- Driving any sequence of well-formed `mark_sent` operations preserves the
pending-store invariant (failed stores keep the previous store). -/
theorem markSentApply_inv (hash : Str → Str)
    (ops : List (Str × Str × PyDateTime × WriteFault)) (fs : FileSys)
    (hinv : MarkSentInv fs)
    (hops : ∀ op ∈ ops, WFVal op.1 ∧ WFVal op.2.1 ∧ WFDT op.2.2.1) :
    MarkSentInv (markSentApply hash fs ops) := by
  induction ops generalizing fs with
  | nil => exact hinv
  | cons op rest ih =>
    obtain ⟨src, tgt, n, flt⟩ := op
    have hstep : markSentApply hash fs ((src, tgt, n, flt) :: rest) =
        markSentApply hash
          (match mark_sent hash n flt fs src tgt with
           | .ok r => r.1
           | .error _ => fs) rest := by
      rw [markSentApply, markSentApply, List.foldl_cons]
    rw [hstep]
    have hop := hops (src, tgt, n, flt) (List.mem_cons_self _ _)
    have hrest : ∀ op ∈ rest, WFVal op.1 ∧ WFVal op.2.1 ∧ WFDT op.2.2.1 :=
      fun o ho => hops o (List.mem_cons_of_mem _ ho)
    cases hms : mark_sent hash n flt fs src tgt with
    | error err => exact ih _ hinv hrest
    | ok r =>
      obtain ⟨fs2, pth⟩ := r
      exact ih _
        (mark_sent_inv hash n flt fs src tgt hinv hop.1 hop.2.1 hop.2.2
          fs2 pth hms) hrest

/-- **C10**: every record stored via `mark_sent` carries the default PENDING
status (the whole store stays pending after any sequence of well-formed
`mark_sent` operations on an initially empty store), `retrieve_webmentions`
returns nothing from a store whose records are all pending (it only keeps
records whose stored status equals the confirmed value), and consequently the
previously recorded outgoing target set loaded by the outgoing processor is
always empty. -/
theorem c10_mark_sent_pending_never_retrieved (hash : Str → Str)
    (ops : List (Str × Str × PyDateTime × WriteFault))
    (hops : ∀ op ∈ ops, WFVal op.1 ∧ WFVal op.2.1 ∧ WFDT op.2.2.1) :
    PendingInv (markSentApply hash [] ops) ∧
    (∀ fs, PendingInv fs → ∀ resource direction,
        retrieve_webmentions fs resource direction = []) ∧
    ∀ source_url,
      outgoing_old_targets (markSentApply hash [] ops) source_url = ∅ := by
  have hinv : MarkSentInv (markSentApply hash [] ops) :=
    markSentApply_inv hash ops []
      (fun e he => absurd he (List.not_mem_nil e)) hops
  have hpend := markSentInv_pending _ hinv
  refine ⟨hpend, fun fs hfs => retrieve_empty_of_pending fs hfs, ?_⟩
  intro u
  rw [outgoing_old_targets, retrieve_empty_of_pending _ hpend u .OUT]
  rfl

theorem c10_mark_sent_pending_never_retrieved_witness :
    (∀ op ∈ opsC10, WFVal op.1 ∧ WFVal op.2.1 ∧ WFDT op.2.2.1) ∧
    (PendingInv (markSentApply hashStub [] opsC10) ∧
     (∀ fs, PendingInv fs → ∀ resource direction,
        retrieve_webmentions fs resource direction = []) ∧
     ∀ source_url,
       outgoing_old_targets (markSentApply hashStub [] opsC10) source_url = ∅) :=
  ⟨by decide,
   c10_mark_sent_pending_never_retrieved hashStub opsC10 (by decide)⟩

/-- Every change `_build_change` emits carries the path it was built for. -/
theorem build_change_path (wfs : WatchFs) (et p : Str) (ch : ContentChange)
    (h : build_change wfs et p = some ch) : ch.path = p := by
  rw [build_change] at h
  split at h
  · exact (congrArg ContentChange.path (Option.some.inj h)).symm
  · simp only [] at h
    split at h
    · exact Option.noConfusion h
    · exact (congrArg ContentChange.path (Option.some.inj h)).symm

/-- Every change collected by the dispatch fold of `_flush_debounced` either
was already collected or belongs to one of the folded paths. -/
theorem flush_fold_mem (wfs : WatchFs) (ps : List Str)
    (acc : WatcherState × List ContentChange) (ch : ContentChange)
    (h : ch ∈ (ps.foldl
      (fun acc p =>
        let etype := ((acc.1).last_event_type p).getD []
        let st2 : WatcherState :=
          { acc.1 with
              pending := (acc.1).pending.filter (fun q => q ≠ p)
              last_event_at := updFn (acc.1).last_event_at p none
              last_event_type := updFn (acc.1).last_event_type p none }
        match build_change wfs etype p with
        | some change => (st2, acc.2 ++ [change])
        | none => (st2, acc.2)) acc).2) :
    ch ∈ acc.2 ∨ ∃ p ∈ ps, ch.path = p := by
  induction ps generalizing acc with
  | nil => exact Or.inl h
  | cons q qs ih =>
    rw [List.foldl_cons] at h
    rcases ih _ h with h1 | ⟨p, hp, hpath⟩
    · dsimp only at h1
      cases hb : build_change wfs (((acc.1).last_event_type q).getD []) q with
      | none => rw [hb] at h1; exact Or.inl h1
      | some c =>
        rw [hb] at h1
        rcases List.mem_append.mp h1 with h2 | h2
        · exact Or.inl h2
        · have hcq := List.mem_singleton.mp h2
          exact Or.inr ⟨q, List.mem_cons_self _ _,
            hcq ▸ build_change_path wfs _ q c hb⟩
    · exact Or.inr ⟨p, List.mem_cons_of_mem _ hp, hpath⟩

/-- The `_flush_debounced` dispatch guard: a dispatched change's path was
pending, the minimum inter-process interval had elapsed since the last batch
dispatch, and the path's last recorded event was at least the debounce window
ago. -/
theorem flush_debounced_guard (wfs : WatchFs) (st : WatcherState) (now : WTime)
    (ch : ContentChange) (h : ch ∈ (flush_debounced wfs st now).2) :
    ch.path ∈ st.pending ∧
    minProcessIntervalSeconds ≤ now - st.last_process_at ∧
    ∃ t, st.last_event_at ch.path = some t ∧ debounceSeconds ≤ now - t := by
  rw [flush_debounced] at h
  split at h
  · exact absurd h (List.not_mem_nil ch)
  · split at h
    · exact absurd h (List.not_mem_nil ch)
    · next hlt =>
      simp only [] at h
      split at h
      · exact absurd h (List.not_mem_nil ch)
      · rcases flush_fold_mem wfs _ _ ch h with h1 | ⟨p, hp2, hpath⟩
        · exact absurd h1 (List.not_mem_nil ch)
        · subst hpath
          have hf := List.mem_filter.mp hp2
          refine ⟨hf.1, le_of_not_lt hlt, ?_⟩
          have hcond := of_decide_eq_true hf.2
          cases hev : st.last_event_at ch.path with
          | none =>
            rw [hev] at hcond
            simp only [Option.getD, sub_self] at hcond
            norm_num [debounceSeconds] at hcond
          | some t =>
            rw [hev] at hcond
            exact ⟨t, rfl, hcond⟩

/-- `_flush_debounced` is a no-op when no pending path has been quiet for the
debounce window. -/
theorem flush_no_ready (wfs : WatchFs) (st : WatcherState) (now : WTime)
    (h : ∀ p ∈ st.pending,
      ¬ (debounceSeconds ≤ now - ((st.last_event_at p).getD now))) :
    flush_debounced wfs st now = (st, []) := by
  rw [flush_debounced]
  split
  · rfl
  · split
    · rfl
    · have hfilt : st.pending.filter
          (fun p => decide (debounceSeconds ≤ now - ((st.last_event_at p).getD now))) = [] := by
        rw [List.filter_eq_nil]
        intro p hp
        simpa using h p hp
      simp only [hfilt, List.isEmpty_nil, if_true]

/-- A `_watch_loop` event step whose path is the only pending one dispatches
nothing: the event it just recorded is too fresh for the debounce window. -/
theorem watch_step_event_quiet (wfs : WatchFs) (st : WatcherState) (t : WTime)
    (et p : Str) (hpend : ∀ q ∈ st.pending, q = p) :
    watch_step wfs st (.fsEvent t et p) =
      ({ st with
           pending := if p ∈ st.pending then st.pending else st.pending ++ [p]
           last_event_at := updFn st.last_event_at p (some t)
           last_event_type := updFn st.last_event_type p (some et) }, []) := by
  rw [watch_step]
  apply flush_no_ready
  intro q hq
  have hqp : q = p := by
    simp only [] at hq
    by_cases hmem : p ∈ st.pending
    · rw [if_pos hmem] at hq
      exact hpend q hq
    · rw [if_neg hmem] at hq
      rcases List.mem_append.mp hq with h1 | h1
      · exact hpend q h1
      · exact List.mem_singleton.mp h1
  subst hqp
  simp only [updFn, if_pos rfl, Option.getD, sub_self]
  norm_num [debounceSeconds]

/-- A "modified" event on an existing recognized file builds an EDITED
change. -/
theorem build_change_modified (wfs : WatchFs) (p : Str)
    (fmt : ContentTextFormat) (hfile : wfs.isFile p = true)
    (hfmt : guess_text_format p = some fmt) :
    build_change wfs (s2c "modified") p =
      some { change_type := .EDITED, path := p, text := wfs.readText p,
             text_format := some fmt } := by
  rw [build_change]
  have hc1 : (decide (s2c "modified" = s2c "deleted") || !wfs.isFile p) = false := by
    rw [hfile]
    decide
  simp only [hc1, Bool.false_eq_true, if_false]
  have hc2 : (s2c "modified" = s2c "created") = False := by
    simp only [eq_iff_iff, iff_false]
    decide
  simp only [hc2, if_false, hfmt]

/-- The queue-timeout flush after a quiet period dispatches the single
pending "modified" path as one EDITED change. -/
theorem flush_poll_single (wfs : WatchFs) (p : Str) (fmt : ContentTextFormat)
    (t3 t4 : WTime) (ea : Str → Option WTime) (etp : Str → Option Str)
    (hfile : wfs.isFile p = true) (hfmt : guess_text_format p = some fmt)
    (hmin : minProcessIntervalSeconds ≤ t4) (hq : t3 + debounceSeconds ≤ t4) :
    (flush_debounced wfs
      { pending := [p], last_event_at := updFn ea p (some t3),
        last_event_type := updFn etp p (some (s2c "modified")),
        last_process_at := 0 } t4).2 =
      [{ change_type := .EDITED, path := p, text := wfs.readText p,
         text_format := some fmt }] := by
  rw [flush_debounced]
  dsimp only
  have hnlt : ¬ (t4 - (0:WTime) < minProcessIntervalSeconds) := by
    rw [sub_zero]
    exact not_lt.mpr hmin
  rw [if_neg hnlt]
  have hup : updFn ea p (some t3) p = some t3 := by
    simp [updFn]
  have hfilter : List.filter
      (fun q => decide (debounceSeconds ≤ t4 - ((updFn ea p (some t3) q).getD t4)))
      [p] = [p] := by
    rw [List.filter_cons]
    have hle : debounceSeconds ≤ t4 - ((updFn ea p (some t3) p).getD t4) := by
      rw [hup]
      simp only [Option.getD]
      linarith
    simp [hle]
  rw [hfilter]
  simp only [List.isEmpty_cons, Bool.false_eq_true, if_false,
    List.foldl_cons, List.foldl_nil]
  have hetype : (updFn etp p (some (s2c "modified")) p).getD [] = s2c "modified" := by
    simp [updFn]
  rw [hetype, build_change_modified wfs p fmt hfile hfmt]
  rfl

/-- **C8**: the watcher's flush policy dispatches a change only for a path
that is pending, only when the minimum inter-process interval (2 s) has
elapsed since the last batch dispatch, and only when the path's last recorded
filesystem event is at least the debounce window (2 s) old; consequently
three rapid "modified" events for the same recognized file within the
debounce window, followed by a quiet queue-timeout poll, produce exactly one
EDITED change for that path. -/
theorem c8_watcher_debounce (wfs : WatchFs) (st : WatcherState) (now : WTime)
    (p : Str) (fmt : ContentTextFormat) (t1 t2 t3 t4 : WTime)
    (hfile : wfs.isFile p = true) (hfmt : guess_text_format p = some fmt)
    (h12 : t1 ≤ t2) (h23 : t2 ≤ t3) (hwin : t3 - t1 < debounceSeconds)
    (hmin : minProcessIntervalSeconds ≤ t4) (hq : t3 + debounceSeconds ≤ t4) :
    (∀ ch ∈ (flush_debounced wfs st now).2,
      ch.path ∈ st.pending ∧
      minProcessIntervalSeconds ≤ now - st.last_process_at ∧
      ∃ t, st.last_event_at ch.path = some t ∧ debounceSeconds ≤ now - t) ∧
    (watch_run wfs initialWatcherState
        [.fsEvent t1 (s2c "modified") p, .fsEvent t2 (s2c "modified") p,
         .fsEvent t3 (s2c "modified") p, .poll t4]).2 =
      [{ change_type := .EDITED, path := p, text := wfs.readText p,
         text_format := some fmt }] := by
  refine ⟨fun ch hch => flush_debounced_guard wfs st now ch hch, ?_⟩
  have h1 : watch_step wfs initialWatcherState
      (.fsEvent t1 (s2c "modified") p) =
      ({ pending := [p], last_event_at := updFn (fun _ => none) p (some t1),
         last_event_type := updFn (fun _ => none) p (some (s2c "modified")),
         last_process_at := 0 }, []) := by
    rw [watch_step_event_quiet wfs initialWatcherState t1 (s2c "modified") p
      (fun q hq => absurd hq (List.not_mem_nil q))]
    simp [initialWatcherState]
  have h2 : watch_step wfs
      { pending := [p], last_event_at := updFn (fun _ => none) p (some t1),
        last_event_type := updFn (fun _ => none) p (some (s2c "modified")),
        last_process_at := 0 } (.fsEvent t2 (s2c "modified") p) =
      ({ pending := [p],
         last_event_at := updFn (updFn (fun _ => none) p (some t1)) p (some t2),
         last_event_type := updFn (updFn (fun _ => none) p
           (some (s2c "modified"))) p (some (s2c "modified")),
         last_process_at := 0 }, []) := by
    rw [watch_step_event_quiet _ _ t2 (s2c "modified") p
      (fun q hq => List.mem_singleton.mp hq)]
    simp
  have h3 : watch_step wfs
      { pending := [p],
        last_event_at := updFn (updFn (fun _ => none) p (some t1)) p (some t2),
        last_event_type := updFn (updFn (fun _ => none) p
          (some (s2c "modified"))) p (some (s2c "modified")),
        last_process_at := 0 } (.fsEvent t3 (s2c "modified") p) =
      ({ pending := [p],
         last_event_at := updFn (updFn (updFn (fun _ => none) p (some t1)) p
           (some t2)) p (some t3),
         last_event_type := updFn (updFn (updFn (fun _ => none) p
           (some (s2c "modified"))) p (some (s2c "modified"))) p
           (some (s2c "modified")),
         last_process_at := 0 }, []) := by
    rw [watch_step_event_quiet _ _ t3 (s2c "modified") p
      (fun q hq => List.mem_singleton.mp hq)]
    simp
  have hcons : ∀ (s : WatcherState) (inp : WatchInput) (rest : List WatchInput),
      watch_run wfs s (inp :: rest) =
        ((watch_run wfs (watch_step wfs s inp).1 rest).1,
         (watch_step wfs s inp).2 ++
           (watch_run wfs (watch_step wfs s inp).1 rest).2) :=
    fun s inp rest => rfl
  rw [hcons, h1]
  dsimp only
  rw [hcons, h2]
  dsimp only
  rw [hcons, h3]
  dsimp only
  rw [hcons]
  have hnil : ∀ s : WatcherState, watch_run wfs s [] = (s, []) := fun s => rfl
  rw [hnil]
  simp only [List.nil_append, List.append_nil]
  exact flush_poll_single wfs p fmt t3 t4 _ _ hfile hfmt hmin hq

theorem c8_watcher_debounce_witness :
    sampleWatchFs.isFile (s2c "post.md") = true ∧
    guess_text_format (s2c "post.md") = some .MARKDOWN ∧
    (0:WTime) ≤ 1/2 ∧ (1/2:WTime) ≤ 1 ∧ (1:WTime) - 0 < debounceSeconds ∧
    minProcessIntervalSeconds ≤ (3:WTime) ∧ (1:WTime) + debounceSeconds ≤ 3 ∧
    ((∀ ch ∈ (flush_debounced sampleWatchFs initialWatcherState 0).2,
        ch.path ∈ initialWatcherState.pending ∧
        minProcessIntervalSeconds ≤ 0 - initialWatcherState.last_process_at ∧
        ∃ t, initialWatcherState.last_event_at ch.path = some t ∧
          debounceSeconds ≤ 0 - t) ∧
     (watch_run sampleWatchFs initialWatcherState
        [.fsEvent 0 (s2c "modified") (s2c "post.md"),
         .fsEvent (1/2) (s2c "modified") (s2c "post.md"),
         .fsEvent 1 (s2c "modified") (s2c "post.md"), .poll 3]).2 =
      [{ change_type := .EDITED, path := s2c "post.md",
         text := sampleWatchFs.readText (s2c "post.md"),
         text_format := some .MARKDOWN }]) :=
  ⟨by decide, by decide, by norm_num, by norm_num,
   by norm_num [debounceSeconds], by norm_num [minProcessIntervalSeconds],
   by norm_num [debounceSeconds],
   c8_watcher_debounce sampleWatchFs initialWatcherState 0 (s2c "post.md")
     .MARKDOWN 0 (1/2) 1 3 (by decide) (by decide) (by norm_num) (by norm_num)
     (by norm_num [debounceSeconds]) (by norm_num [minProcessIntervalSeconds])
     (by norm_num [debounceSeconds])⟩
